import Mathlib

/-!
Miele Novotronic bus sniffer: embedding of `MotorolaLedDriverSniffer.h`.

A shallow embedding of the protocol decoder of
`src/components/miele_novotronic/MotorolaLedDriverSniffer.h`.

* C++ objects are structures, member functions take the object first and
  return the updated object.
* `uint8_t` / `uint32_t` values are natural numbers, wrapped explicitly with
  `% 2 ^ 8` / `% 2 ^ 32` wherever the C++ arithmetic can wrap.
* The two GPIO reads (`_cs.digital_read()`, `_data.digital_read()`) are inputs
  of the member function that performs them.
* `__builtin_unreachable()` is the result `none`.
-/

namespace miele_novotronic

/-! ## `RingBuffer<T, N>` -/

/-- The class `RingBuffer<T, N>`: the array `T values[N]`, the write index
`_ptr` and the saturating counter `_size`. -/
structure RingBuffer (T : Type) (N : Nat) where
  /-- `T values[N]` -/
  values : Fin N → T
  /-- `size_t _ptr` -/
  _ptr : Nat
  /-- `size_t _size` -/
  _size : Nat

namespace RingBuffer

variable {T : Type} {N : Nat}

/-- A freshly constructed ring: `values[N] = {}`, `_ptr = 0`, `_size = 0`. -/
def fresh [Inhabited T] : RingBuffer T N :=
  { values := fun _ => default, _ptr := 0, _size := 0 }

/-- `RingBuffer::push`:
`values[_ptr] = value; _ptr = (_ptr + 1) % N; _size = std::min(_size + 1, N);` -/
def push (self : RingBuffer T N) (value : T) : RingBuffer T N :=
  { values := fun i => if i.val = self._ptr then value else self.values i
    _ptr := (self._ptr + 1) % N
    _size := min (self._size + 1) N }

/-- `RingBuffer::size`. -/
def size (self : RingBuffer T N) : Nat := self._size

/-- The read `values[i]` for a run-time index `i` (the default value stands for
a read outside the array, which no caller performs). -/
def read [Inhabited T] (self : RingBuffer T N) (i : Nat) : T :=
  if h : i < N then self.values ⟨i, h⟩ else default

/-- A sequence of `push` calls, oldest first. -/
def pushAll (self : RingBuffer T N) (xs : List T) : RingBuffer T N :=
  xs.foldl push self

end RingBuffer

/-! ## `ConsensusBuffer<T, Votes>` -/

/-- The class `ConsensusBuffer<T, Votes>`: the ring `_buffer` and the visible
value `_consensusValue`. -/
structure ConsensusBuffer (T : Type) (Votes : Nat) where
  /-- `RingBuffer<T, Votes> _buffer` -/
  _buffer : RingBuffer T Votes
  /-- `volatile T _consensusValue` -/
  _consensusValue : T

namespace ConsensusBuffer

variable {T : Type} {Votes : Nat}

/-- A freshly constructed buffer: empty ring, `_consensusValue = T()`. -/
def fresh [Inhabited T] : ConsensusBuffer T Votes :=
  { _buffer := RingBuffer.fresh, _consensusValue := default }

/-- The conversion `operator T() const`. -/
def get (self : ConsensusBuffer T Votes) : T := self._consensusValue

/-- `ConsensusBuffer::updateConsensus`: return early when the ring is not full
or when some `values[i]`, `1 ≤ i < Votes`, differs from `values[0]`; otherwise
store `values[0]` as the visible value. -/
def updateConsensus [Inhabited T] [DecidableEq T] (self : ConsensusBuffer T Votes) :
    ConsensusBuffer T Votes :=
  if self._buffer.size < Votes then self
  else
    let value := self._buffer.read 0
    if (List.range' 1 (Votes - 1)).any (fun i => value != self._buffer.read i) then self
    else { self with _consensusValue := value }

/-- The assignment `operator=(T nextValue)`: push, then `updateConsensus`. -/
def assign [Inhabited T] [DecidableEq T] (self : ConsensusBuffer T Votes) (nextValue : T) :
    ConsensusBuffer T Votes :=
  updateConsensus { self with _buffer := self._buffer.push nextValue }

/-- A sequence of assignments, oldest first. -/
def assignAll [Inhabited T] [DecidableEq T] (self : ConsensusBuffer T Votes) (xs : List T) :
    ConsensusBuffer T Votes :=
  xs.foldl assign self

end ConsensusBuffer

/-! ## `MC14489`: one monitored driver chip -/

/-- The class `MC14489` without its two pins, whose reads are inputs of
`select` and `tick`. -/
structure MC14489 where
  /-- `volatile uint32_t displayUpdates` -/
  displayUpdates : Nat
  /-- `volatile uint32_t ctrlUpdates` -/
  ctrlUpdates : Nat
  /-- `bool _selected` -/
  _selected : Bool
  /-- `uint32_t _buffer` -/
  _buffer : Nat
  /-- `uint8_t _bits` -/
  _bits : Nat
  /-- `ConsensusBuffer<uint32_t> _displayReg` -/
  _displayReg : ConsensusBuffer Nat 3
  /-- `ConsensusBuffer<uint8_t> _ctrlReg` -/
  _ctrlReg : ConsensusBuffer Nat 3

namespace MC14489

/-- A freshly constructed decoder (the member initialisers of the class). -/
def init : MC14489 :=
  { displayUpdates := 0, ctrlUpdates := 0, _selected := false, _buffer := 0, _bits := 0
    _displayReg := ConsensusBuffer.fresh, _ctrlReg := ConsensusBuffer.fresh }

/-- `MC14489::select`, with `cs` the value of `_cs.digital_read()`. The
`switch (_bits)` has the cases 8 and 24 and an empty default. -/
def select (self : MC14489) (cs : Bool) : MC14489 :=
  let self := { self with _selected := cs }
  if self._selected then
    { self with _buffer := 0, _bits := 0 }
  else if self._bits = 8 then
    { self with
      _ctrlReg := self._ctrlReg.assign (self._buffer % 2 ^ 8)
      ctrlUpdates := (self.ctrlUpdates + 1) % 2 ^ 32 }
  else if self._bits = 24 then
    { self with
      _displayReg := self._displayReg.assign self._buffer
      displayUpdates := (self.displayUpdates + 1) % 2 ^ 32 }
  else self

/-- `MC14489::tick`, with `data` the value of `_data.digital_read()`:
`_buffer = (_buffer << 1) + data` in `uint32_t`, `_bits++` in `uint8_t`. -/
def tick (self : MC14489) (data : Bool) : MC14489 :=
  if !self._selected then self
  else
    { self with
      _buffer := ((self._buffer <<< 1) + data.toNat) % 2 ^ 32
      _bits := (self._bits + 1) % 2 ^ 8 }

/-- `MC14489::getDisplayReg`. -/
def getDisplayReg (self : MC14489) : Nat := self._displayReg.get

/-- `MC14489::getCtrlReg`. -/
def getCtrlReg (self : MC14489) : Nat := self._ctrlReg.get

/-- `MC14489::decodeBank` for a `uint8_t bankNibble`. The sums `'0' + bankNibble`
and `'A' + bankNibble - 10` are computed in `int` and converted to `char`;
`none` is the `__builtin_unreachable()` after the `switch`. -/
def decodeBank (bankNibble : Nat) (specialDecode : Bool) : Option Char :=
  if !specialDecode then
    if bankNibble < 10 then
      some (Char.ofNat (('0'.toNat + bankNibble) % 2 ^ 8))
    else
      some (Char.ofNat (('A'.toNat + bankNibble - 10) % 2 ^ 8))
  else
    match bankNibble with
    | 0x0 => some ' '
    | 0x1 => some 'c'
    | 0x2 => some 'H'
    | 0x3 => some 'h'
    | 0x4 => some 'J'
    | 0x5 => some 'L'
    | 0x6 => some 'n'
    | 0x7 => some 'o'
    | 0x8 => some 'P'
    | 0x9 => some 'r'
    | 0xA => some 'U'
    | 0xB => some 'u'
    | 0xC => some 'y'
    | 0xD => some '-'
    | 0xE => some '='
    | 0xF => some 'o'
    | _ => none

/-- A run of `tick` calls, one per data-line sample, oldest first. -/
def ticks (self : MC14489) (samples : List Bool) : MC14489 :=
  samples.foldl tick self

end MC14489

/-- What the bus does to one decoder: an edge of its chip-select line (with the
level then read) or a clock edge (with the data level then read). -/
inductive Event where
  | select (cs : Bool)
  | tick (data : Bool)
  deriving DecidableEq

/-- The decoder's reaction to one event. -/
def MC14489.step (self : MC14489) : Event → MC14489
  | .select cs => self.select cs
  | .tick data => self.tick data

/-- The decoder's reaction to a sequence of events, oldest first. -/
def MC14489.run (self : MC14489) (events : List Event) : MC14489 :=
  events.foldl MC14489.step self

/-- The `width` low bits of `v`, most significant first: what the data line
presents on `width` consecutive clock edges when `v` is shifted out. -/
def bitsMSB : Nat → Nat → List Bool
  | 0, _ => []
  | width + 1, v => v.testBit width :: bitsMSB width v

/-- One bus transaction seen by a decoder: `select()` reading selected,
one `tick()` per bit of `v` (most significant first), `select()` reading
deselected. -/
def MC14489.transaction (self : MC14489) (width v : Nat) : MC14489 :=
  ((self.select true).ticks (bitsMSB width v)).select false

/-! ## The output sink -/

/-- Modelled from the spec: `esphome::text_sensor::TextSensor`, whose source is
not part of this repository. `state` is the sink's current value; `published`
records the arguments of the `publish_state` calls, oldest first. -/
structure TextSensor where
  state : String
  published : List String

/-- Modelled from the spec: `publish(newValue)` replaces the current value. -/
def TextSensor.publish_state (sensor : TextSensor) (newState : String) : TextSensor :=
  { state := newState, published := sensor.published ++ [newState] }

/-! ## `MotorolaLedDriverSniffer` -/

/-- `using DisplayArray = std::array<char, 3>`. -/
abbrev DisplayArray := Char × Char × Char

/-- `enum State`. -/
inductive State where
  | MIELE_NORMAL
  | MIELE_DOOR_OPEN
  | MIELE_FAULT
  deriving DecidableEq

/-- The class `MotorolaLedDriverSniffer` without its pins. -/
structure MotorolaLedDriverSniffer where
  /-- `MC14489 _left` -/
  _left : MC14489
  /-- `MC14489 _right` -/
  _right : MC14489
  /-- `TextSensor* _timeOutput` -/
  _timeOutput : TextSensor
  /-- `TextSensor* _stateOutput` -/
  _stateOutput : TextSensor

namespace MotorolaLedDriverSniffer

/-- `handleClkImpl`: both decoders tick; each `tick` reads the data pin itself. -/
def handleClkImpl (self : MotorolaLedDriverSniffer) (dataLeft dataRight : Bool) :
    MotorolaLedDriverSniffer :=
  { self with _left := self._left.tick dataLeft, _right := self._right.tick dataRight }

/-- `isDisplayOff`: `(_left.getCtrlReg() & 1) == 0`. -/
def isDisplayOff (self : MotorolaLedDriverSniffer) : Bool :=
  self._left.getCtrlReg &&& 1 == 0

/-- `getDisplay`: the three banks of the left display register, each decoded
with the table chosen by the left control register. -/
def getDisplay (self : MotorolaLedDriverSniffer) : Option DisplayArray := do
  let ldispreg := self._left.getDisplayReg
  let lctrlreg := self._left.getCtrlReg
  let specialDecode1 := 0x42
  let specialDecode2 := 0x44
  let specialDecode3 := 0x48
  let c0 ← MC14489.decodeBank (ldispreg &&& 0xf) (lctrlreg &&& specialDecode1 == specialDecode1)
  let c1 ← MC14489.decodeBank ((ldispreg >>> 4) &&& 0xf)
    (lctrlreg &&& specialDecode2 == specialDecode2)
  let c2 ← MC14489.decodeBank ((ldispreg >>> 8) &&& 0xf)
    (lctrlreg &&& specialDecode3 == specialDecode3)
  return (c0, c1, c2)

/-- `formatTime`; `str` is the `std::ostringstream`. -/
def formatTime (self : MotorolaLedDriverSniffer) : Option String := do
  let str := ""
  if self.isDisplayOff then
    return " "
  let disp ← self.getDisplay
  if disp.1 == '-' then
    return "---"
  if disp.2.2 == ' ' then
    return " "
  let hasHours := disp.1 != ' '
  let str := if hasHours then (str.push disp.1) ++ "h " else str
  let str := if disp.2.1 != ' ' then str.push disp.2.1 else str
  let str := if disp.2.2 != ' ' then str.push disp.2.2 else str
  let str := if hasHours then str ++ "m" else str ++ " min"
  return str

/-- `decodeState`. -/
def decodeState (self : MotorolaLedDriverSniffer) : Option State := do
  let _lctrlreg := self._left.getCtrlReg
  if self.isDisplayOff then
    return State.MIELE_DOOR_OPEN
  let disp ← self.getDisplay
  if disp.1 == '-' then
    return State.MIELE_FAULT
  return State.MIELE_NORMAL

/-- `formatState`; `states` is the `std::vector<std::string>`, and the final
loop writes `", "` before a label whenever the stream already holds text
(`str.tellp() > 0`). -/
def formatState (self : MotorolaLedDriverSniffer) : Option String := do
  let rdispreg := self._right.getDisplayReg
  let _rctrlreg := self._right.getCtrlReg
  let states : List String := []
  let progress := ((rdispreg &&& 0xf000) >>> 8) ||| (rdispreg &&& 0x7)
  let state ← self.decodeState
  let states ← match state with
    | State.MIELE_DOOR_OPEN => pure (states ++ ["Door open"])
    | State.MIELE_FAULT => pure (states ++ ["Fault"])
    | _ =>
      if progress = 0x10 then pure (states ++ ["Pre-washing"])
      else if progress = 0x20 then pure (states ++ ["Washing"])
      else if progress = 0x40 then pure (states ++ ["Rinsing"])
      else if progress = 0x80 then pure (states ++ ["Paused Rinse"])
      else if progress = 0x01 then pure (states ++ ["Pumping"])
      else if progress = 0x02 then pure (states ++ ["Spinning"])
      else if progress = 0x04 then do
        let disp ← self.getDisplay
        if disp = (' ', ' ', '0') then pure (states ++ ["Finished"])
        else pure (states ++ ["Idle"])
      else if progress = 0 then pure (states ++ ["Ready"])
      else pure states
  let centrifugeSetting := (rdispreg &&& 0x7e0000) >>> 16
  let states :=
    if centrifugeSetting = 0x02 then states ++ ["Ø 1600"]
    else if centrifugeSetting = 0x04 then states ++ ["Ø 1400"]
    else if centrifugeSetting = 0x08 then states ++ ["Ø 1200"]
    else if centrifugeSetting = 0x50 then states ++ ["Ø 900"]
    else if centrifugeSetting = 0x40 then states ++ ["Ø 600"]
    else if centrifugeSetting = 0x30 then states ++ ["Ø 400"]
    else if centrifugeSetting = 0x20 then states ++ ["Ø Rinse-pause"]
    else if centrifugeSetting = 0x10 then states ++ ["Ø No"]
    else states
  let states := if rdispreg &&& 0x100 ≠ 0 then states ++ ["Pre-wash"] else states
  let states := if rdispreg &&& 0x40 ≠ 0 then states ++ ["Short"] else states
  let states := if rdispreg &&& 0x80 ≠ 0 then states ++ ["Wasser Plus"] else states
  let states := if rdispreg &&& 0x010000 ≠ 0 then states ++ ["Summer"] else states
  let str := states.foldl
    (fun str state => (if str.length > 0 then str ++ ", " else str) ++ state) ""
  return str

/-- `publishNew`: publish only when the sink's value differs. -/
def publishNew (sensor : TextSensor) (newState : String) : TextSensor :=
  if sensor.state != newState then sensor.publish_state newState else sensor

/-- `loop`: format both strings and hand each to its sink through
`publishNew`. -/
def loop (self : MotorolaLedDriverSniffer) : Option MotorolaLedDriverSniffer := do
  let time ← self.formatTime
  let self := { self with _timeOutput := publishNew self._timeOutput time }
  let state ← self.formatState
  return { self with _stateOutput := publishNew self._stateOutput state }

/-- The part of `formatState` up to the end of `switch (state)`: the phase label
pushed into `states`, if any. -/
def phaseLabels (self : MotorolaLedDriverSniffer) : Option (List String) := do
  let rdispreg := self._right.getDisplayReg
  let progress := ((rdispreg &&& 0xf000) >>> 8) ||| (rdispreg &&& 0x7)
  let state ← self.decodeState
  match state with
    | State.MIELE_DOOR_OPEN => pure ["Door open"]
    | State.MIELE_FAULT => pure ["Fault"]
    | _ =>
      if progress = 0x10 then pure ["Pre-washing"]
      else if progress = 0x20 then pure ["Washing"]
      else if progress = 0x40 then pure ["Rinsing"]
      else if progress = 0x80 then pure ["Paused Rinse"]
      else if progress = 0x01 then pure ["Pumping"]
      else if progress = 0x02 then pure ["Spinning"]
      else if progress = 0x04 then do
        let disp ← self.getDisplay
        if disp = (' ', ' ', '0') then pure ["Finished"]
        else pure ["Idle"]
      else if progress = 0 then pure ["Ready"]
      else pure []

/-- The `switch (centrifugeSetting)` of `formatState`: the label it pushes into
`states`, if any, for the right display register `rdispreg`. -/
def centrifugeLabels (rdispreg : Nat) : List String :=
  let centrifugeSetting := (rdispreg &&& 0x7e0000) >>> 16
  if centrifugeSetting = 0x02 then ["Ø 1600"]
  else if centrifugeSetting = 0x04 then ["Ø 1400"]
  else if centrifugeSetting = 0x08 then ["Ø 1200"]
  else if centrifugeSetting = 0x50 then ["Ø 900"]
  else if centrifugeSetting = 0x40 then ["Ø 600"]
  else if centrifugeSetting = 0x30 then ["Ø 400"]
  else if centrifugeSetting = 0x20 then ["Ø Rinse-pause"]
  else if centrifugeSetting = 0x10 then ["Ø No"]
  else []

/-- The four option tests of `formatState`: the labels they push into `states`
for the right display register `rdispreg`. -/
def optionLabels (rdispreg : Nat) : List String :=
  (if rdispreg &&& 0x100 ≠ 0 then ["Pre-wash"] else []) ++
  (if rdispreg &&& 0x40 ≠ 0 then ["Short"] else []) ++
  (if rdispreg &&& 0x80 ≠ 0 then ["Wasser Plus"] else []) ++
  (if rdispreg &&& 0x010000 ≠ 0 then ["Summer"] else [])

/-- The part of `formatState` between `switch (state)` and the final loop: what
it makes of the vector `states` for the right display register `rdispreg`. -/
def labelsAfterPhase (rdispreg : Nat) (states : List String) : List String :=
  let centrifugeSetting := (rdispreg &&& 0x7e0000) >>> 16
  let states :=
    if centrifugeSetting = 0x02 then states ++ ["Ø 1600"]
    else if centrifugeSetting = 0x04 then states ++ ["Ø 1400"]
    else if centrifugeSetting = 0x08 then states ++ ["Ø 1200"]
    else if centrifugeSetting = 0x50 then states ++ ["Ø 900"]
    else if centrifugeSetting = 0x40 then states ++ ["Ø 600"]
    else if centrifugeSetting = 0x30 then states ++ ["Ø 400"]
    else if centrifugeSetting = 0x20 then states ++ ["Ø Rinse-pause"]
    else if centrifugeSetting = 0x10 then states ++ ["Ø No"]
    else states
  let states := if rdispreg &&& 0x100 ≠ 0 then states ++ ["Pre-wash"] else states
  let states := if rdispreg &&& 0x40 ≠ 0 then states ++ ["Short"] else states
  let states := if rdispreg &&& 0x80 ≠ 0 then states ++ ["Wasser Plus"] else states
  let states := if rdispreg &&& 0x010000 ≠ 0 then states ++ ["Summer"] else states
  states

/-- The final loop of `formatState` over `states`. -/
def joinLabels (states : List String) : String :=
  states.foldl (fun str state => (if str.length > 0 then str ++ ", " else str) ++ state) ""

end MotorolaLedDriverSniffer

/-! ## Vocabulary of the statements -/

/-- The feeds number `j`, `j + 1` and `j + 2` of `xs` (counted from 0) exist and
all three equal `c`. -/
def unanimousAt {T : Type} (xs : List T) (j : Nat) (c : T) : Prop :=
  xs[j]? = some c ∧ xs[j + 1]? = some c ∧ xs[j + 2]? = some c

/-- A sniffer whose four consensus registers show the given values, everything
else as freshly constructed. -/
def MotorolaLedDriverSniffer.withRegisters (lctrl ldisp rctrl rdisp : Nat) :
    MotorolaLedDriverSniffer :=
  { _left := { MC14489.init with
      _ctrlReg := { ConsensusBuffer.fresh with _consensusValue := lctrl }
      _displayReg := { ConsensusBuffer.fresh with _consensusValue := ldisp } }
    _right := { MC14489.init with
      _ctrlReg := { ConsensusBuffer.fresh with _consensusValue := rctrl }
      _displayReg := { ConsensusBuffer.fresh with _consensusValue := rdisp } }
    _timeOutput := { state := "", published := [] }
    _stateOutput := { state := "", published := [] } }

/-- A list that holds one label or none, and no empty label. -/
def atMostOneLabel (labels : List String) : Prop :=
  labels.length ≤ 1 ∧ ∀ s ∈ labels, 0 < String.length s

instance {T : Type} [DecidableEq T] (xs : List T) (j : Nat) (c : T) :
    Decidable (unanimousAt xs j c) := by
  unfold unanimousAt
  infer_instance

/-! ## Ring buffer: contents after a run of pushes -/

namespace RingBuffer

variable {T : Type} {N : Nat}

theorem pushAll_concat (rb : RingBuffer T N) (xs : List T) (x : T) :
    rb.pushAll (xs ++ [x]) = (rb.pushAll xs).push x := by
  simp [pushAll, List.foldl_append]

/-- Two indices less than `N` apart occupy different slots. -/
theorem mod_ne_of_close {j k : Nat} (hjk : j < k) (hk : k < j + N) : j % N ≠ k % N := by
  intro h
  have h0 : (k - j) % N = 0 := Nat.sub_mod_eq_zero_of_mod_eq h.symm
  rw [Nat.mod_eq_of_lt (by omega)] at h0
  omega

theorem read_eq [Inhabited T] (rb : RingBuffer T N) (i : Fin N) : rb.read i.val = rb.values i := by
  simp [read]

/-- State of a fresh ring after pushing `xs`: the write index, the counter, the
slots of the last `N` inputs, and the slots never written. -/
theorem fresh_pushAll_inv [Inhabited T] (xs : List T) :
    ((fresh : RingBuffer T N).pushAll xs)._ptr = xs.length % N ∧
    ((fresh : RingBuffer T N).pushAll xs)._size = min xs.length N ∧
    (∀ (i : Fin N) (j : Nat), j < xs.length → xs.length ≤ j + N → j % N = i.val →
      xs[j]? = some (((fresh : RingBuffer T N).pushAll xs).values i)) ∧
    (∀ i : Fin N, xs.length ≤ i.val →
      ((fresh : RingBuffer T N).pushAll xs).values i = default) := by
  induction xs using List.reverseRecOn with
  | nil => simp [pushAll, fresh]
  | append_singleton xs x ih =>
    obtain ⟨hp, hs, hv, hd⟩ := ih
    rw [pushAll_concat]
    refine ⟨?_, ?_, ?_, ?_⟩
    · simp [push, hp, Nat.mod_add_mod]
    · simp only [push, hs, List.length_append, List.length_singleton]
      omega
    · intro i j hj hjN hji
      simp only [List.length_append, List.length_singleton] at hj hjN
      by_cases hjl : j = xs.length
      · subst hjl
        simp [push, hp, hji]
      · have hj2 : j < xs.length := by omega
        have hne : i.val ≠ xs.length % N := by
          rw [← hji]
          exact mod_ne_of_close hj2 (by omega)
        rw [List.getElem?_append_left hj2]
        simp only [push, hp, hne, if_false]
        exact hv i j hj2 (by omega) hji
    · intro i hi
      simp only [List.length_append, List.length_singleton] at hi
      have hne : i.val ≠ xs.length % N := by
        have := Nat.mod_le xs.length N
        omega
      simp only [push, hp, hne, if_false]
      exact hd i (by omega)

/-- Among the inputs pushed so far, a non-empty residue class has a last member,
and it lies among the last `N` inputs. -/
theorem exists_last_in_class (len : Nat) (i : Fin N) (hi : i.val < len) :
    ∃ j, j < len ∧ j % N = i.val ∧ len ≤ j + N ∧ ∀ k, k < len → k % N = i.val → k ≤ j := by
  have hN : 0 < N := i.pos
  have hi0 : i.val % N = i.val := Nat.mod_eq_of_lt i.isLt
  refine ⟨Nat.findGreatest (fun j => j % N = i.val) (len - 1), ?_, ?_, ?_, ?_⟩
  · have := Nat.findGreatest_le (P := fun j => j % N = i.val) (len - 1)
    omega
  · exact Nat.findGreatest_spec (P := fun j => j % N = i.val) (m := i.val) (by omega) hi0
  · by_contra hlt
    have hk : (Nat.findGreatest (fun j => j % N = i.val) (len - 1) + N) % N = i.val := by
      rw [Nat.add_mod_right]
      exact Nat.findGreatest_spec (P := fun j => j % N = i.val) (m := i.val) (by omega) hi0
    have := Nat.le_findGreatest (P := fun j => j % N = i.val)
      (m := Nat.findGreatest (fun j => j % N = i.val) (len - 1) + N) (n := len - 1)
      (by omega) hk
    omega
  · intro k hk hki
    exact Nat.le_findGreatest (P := fun j => j % N = i.val) (by omega) hki

/-- The last `N` inputs of a fresh ring, read back by index. -/
theorem fresh_pushAll_read [Inhabited T] (xs : List T) (j : Nat) (hj : j < xs.length)
    (hjN : xs.length ≤ j + N) :
    xs[j]? = some (((fresh : RingBuffer T N).pushAll xs).read (j % N)) := by
  have hN : 0 < N := by omega
  have h := (fresh_pushAll_inv (N := N) xs).2.2.1 ⟨j % N, Nat.mod_lt _ hN⟩ j hj hjN rfl
  rw [h, ← read_eq]

end RingBuffer

/-! ## Consensus buffer -/

namespace ConsensusBuffer

variable {T : Type} [Inhabited T] [DecidableEq T] {Votes : Nat}

theorem assign_buffer (cb : ConsensusBuffer T Votes) (v : T) :
    (cb.assign v)._buffer = cb._buffer.push v := by
  unfold assign updateConsensus
  split
  · rfl
  · dsimp only
    split <;> rfl

theorem assignAll_concat (cb : ConsensusBuffer T Votes) (xs : List T) (x : T) :
    cb.assignAll (xs ++ [x]) = (cb.assignAll xs).assign x := by
  simp [assignAll, List.foldl_append]

theorem assignAll_buffer (cb : ConsensusBuffer T Votes) (xs : List T) :
    (cb.assignAll xs)._buffer = cb._buffer.pushAll xs := by
  induction xs using List.reverseRecOn with
  | nil => rfl
  | append_singleton xs x ih =>
    rw [assignAll_concat, assign_buffer, ih, RingBuffer.pushAll_concat]

/-- The visible value after one assignment, for three votes. -/
theorem assign_get3 (cb : ConsensusBuffer T 3) (v : T) :
    (cb.assign v).get =
      if (cb._buffer.push v)._size < 3 then cb.get
      else if (cb._buffer.push v).read 0 = (cb._buffer.push v).read 1 ∧
          (cb._buffer.push v).read 0 = (cb._buffer.push v).read 2
        then (cb._buffer.push v).read 0
        else cb.get := by
  unfold assign updateConsensus get
  simp only [RingBuffer.size]
  split
  · rfl
  · simp only [List.range', List.any, Nat.reduceSub, Nat.reduceAdd, Bool.or_false,
      Bool.or_eq_true, bne_iff_ne, ne_eq]
    split_ifs with h1 h2 h2 <;> first | rfl | (exfalso; tauto)

/-- Three equal assignments make the value visible, whatever the ring held. -/
theorem assign_thrice (cb : ConsensusBuffer T 3) (hptr : cb._buffer._ptr < 3) (v : T) :
    (((cb.assign v).assign v).assign v).get = v := by
  rw [assign_get3, assign_buffer, assign_buffer]
  have hsize : (((cb._buffer.push v).push v).push v)._size = 3 := by
    simp only [RingBuffer.push]
    omega
  have hp : cb._buffer._ptr = 0 ∨ cb._buffer._ptr = 1 ∨ cb._buffer._ptr = 2 := by omega
  rw [if_neg (by omega)]
  rcases hp with hp | hp | hp <;> simp [RingBuffer.push, RingBuffer.read, hp]

omit [Inhabited T] [DecidableEq T] in
theorem unanimousAt_length {xs : List T} {j : Nat} {c : T} (h : unanimousAt xs j c) :
    j + 2 < xs.length := by
  obtain ⟨hlt, -⟩ := List.getElem?_eq_some.1 h.2.2
  exact hlt

omit [Inhabited T] [DecidableEq T] in
theorem unanimousAt_concat (xs : List T) (x : T) (j : Nat) (c : T) :
    unanimousAt (xs ++ [x]) j c ↔
      unanimousAt xs j c ∨ (j + 3 = xs.length + 1 ∧ unanimousAt (xs ++ [x]) j x ∧ c = x) := by
  constructor
  · intro h
    have hlen := unanimousAt_length h
    simp only [List.length_append, List.length_singleton] at hlen
    by_cases hj : j + 2 < xs.length
    · left
      obtain ⟨h0, h1, h2⟩ := h
      rw [List.getElem?_append_left (by omega)] at h0 h1 h2
      exact ⟨h0, h1, h2⟩
    · right
      have hj2 : j + 2 = xs.length := by omega
      have hx : c = x := by
        have h2 := h.2.2
        rw [hj2, List.getElem?_concat_length] at h2
        exact (Option.some.inj h2).symm
      subst hx
      exact ⟨by omega, h, rfl⟩
  · rintro (h | ⟨-, h, rfl⟩)
    · have hlen := unanimousAt_length h
      obtain ⟨h0, h1, h2⟩ := h
      refine ⟨?_, ?_, ?_⟩
      · rw [List.getElem?_append_left (by omega)]; exact h0
      · rw [List.getElem?_append_left (by omega)]; exact h1
      · rw [List.getElem?_append_left (by omega)]; exact h2
    · exact h

/-- The visible value after one more feed into a buffer that was fresh before
`xs`: it moves exactly when the new feed completes a unanimous triple. -/
theorem fresh_assign_step (xs : List T) (x : T) :
    ((∃ j, j + 3 = xs.length + 1 ∧ unanimousAt (xs ++ [x]) j x) →
      ((fresh : ConsensusBuffer T 3).assignAll (xs ++ [x])).get = x) ∧
    (¬ (∃ j, j + 3 = xs.length + 1 ∧ unanimousAt (xs ++ [x]) j x) →
      ((fresh : ConsensusBuffer T 3).assignAll (xs ++ [x])).get =
        ((fresh : ConsensusBuffer T 3).assignAll xs).get) := by
  rw [assignAll_concat, assign_get3, assignAll_buffer, ← RingBuffer.pushAll_concat]
  have hsz := (RingBuffer.fresh_pushAll_inv (T := T) (N := 3) (xs ++ [x])).2.1
  have hfresh : (fresh : ConsensusBuffer T 3)._buffer = RingBuffer.fresh := rfl
  rw [hfresh, hsz]
  simp only [List.length_append, List.length_singleton]
  by_cases hlen : xs.length + 1 < 3
  · rw [if_pos (by omega)]
    refine ⟨?_, fun _ => rfl⟩
    rintro ⟨j, hj, -⟩
    omega
  · rw [if_neg (by omega)]
    obtain ⟨j0, hj0⟩ : ∃ j0, xs.length = j0 + 2 := ⟨xs.length - 2, by omega⟩
    have hL : (xs ++ [x]).length = j0 + 3 := by simp [hj0]
    have h0 := RingBuffer.fresh_pushAll_read (N := 3) (xs ++ [x]) j0 (by omega) (by omega)
    have h1 := RingBuffer.fresh_pushAll_read (N := 3) (xs ++ [x]) (j0 + 1) (by omega) (by omega)
    have h2 := RingBuffer.fresh_pushAll_read (N := 3) (xs ++ [x]) (j0 + 2) (by omega) (by omega)
    have hx : (xs ++ [x])[j0 + 2]? = some x := by
      rw [← hj0]; exact List.getElem?_concat_length xs x
    have hex : (∃ j, j + 3 = xs.length + 1 ∧ unanimousAt (xs ++ [x]) j x) ↔
        ((xs ++ [x])[j0]? = some x ∧ (xs ++ [x])[j0 + 1]? = some x) := by
      constructor
      · rintro ⟨j, hj, hu⟩
        have : j = j0 := by omega
        subst this
        exact ⟨hu.1, hu.2.1⟩
      · rintro ⟨ha, hb⟩
        exact ⟨j0, by omega, ha, hb, hx⟩
    rw [hx] at h2
    have h2x := Option.some.inj h2
    rw [hex, h0, h1]
    simp only [Option.some.injEq]
    have hr : j0 % 3 = 0 ∨ j0 % 3 = 1 ∨ j0 % 3 = 2 := by omega
    rcases hr with hr | hr | hr
    · have e0 : j0 % 3 = 0 := hr
      have e1 : (j0 + 1) % 3 = 1 := by omega
      have e2 : (j0 + 2) % 3 = 2 := by omega
      rw [e2] at h2x
      simp only [e0, e1]
      constructor
      · rintro ⟨ha, hb⟩
        rw [if_pos ⟨by rw [ha, hb], by rw [ha, ← h2x]⟩, ha]
      · intro hn
        rw [if_neg]
        rintro ⟨ha, hb⟩
        exact hn ⟨by rw [hb, ← h2x], by rw [← ha, hb, ← h2x]⟩
    · have e0 : j0 % 3 = 1 := hr
      have e1 : (j0 + 1) % 3 = 2 := by omega
      have e2 : (j0 + 2) % 3 = 0 := by omega
      rw [e2] at h2x
      simp only [e0, e1]
      constructor
      · rintro ⟨ha, hb⟩
        rw [if_pos ⟨by rw [ha, ← h2x], by rw [hb, ← h2x]⟩, ← h2x]
      · intro hn
        rw [if_neg]
        rintro ⟨ha, hb⟩
        exact hn ⟨by rw [← ha, ← h2x], by rw [← hb, ← h2x]⟩
    · have e0 : j0 % 3 = 2 := hr
      have e1 : (j0 + 1) % 3 = 0 := by omega
      have e2 : (j0 + 2) % 3 = 1 := by omega
      rw [e2] at h2x
      simp only [e0, e1]
      constructor
      · rintro ⟨ha, hb⟩
        rw [if_pos ⟨by rw [hb, ← h2x], by rw [hb, ha]⟩, hb]
      · intro hn
        rw [if_neg]
        rintro ⟨ha, hb⟩
        exact hn ⟨by rw [← hb, ha, ← h2x], by rw [ha, ← h2x]⟩

/-- The visible value of a buffer that was fresh before `xs` is the value of the
last unanimous triple of `xs`, and `T()` when `xs` has none. -/
theorem fresh_assignAll_char (xs : List T) :
    (∃ j, unanimousAt xs j ((fresh : ConsensusBuffer T 3).assignAll xs).get ∧
        ∀ k c, j < k → ¬ unanimousAt xs k c) ∨
    ((∀ j c, ¬ unanimousAt xs j c) ∧
        ((fresh : ConsensusBuffer T 3).assignAll xs).get = default) := by
  induction xs using List.reverseRecOn with
  | nil =>
    right
    refine ⟨?_, rfl⟩
    intro j c h
    have := unanimousAt_length h
    simp at this
  | append_singleton xs x ih =>
    by_cases hnew : ∃ j, j + 3 = xs.length + 1 ∧ unanimousAt (xs ++ [x]) j x
    · rw [(fresh_assign_step xs x).1 hnew]
      obtain ⟨j0, hj0, hu⟩ := hnew
      left
      refine ⟨j0, hu, ?_⟩
      intro k c hk hc
      have := unanimousAt_length hc
      simp only [List.length_append, List.length_singleton] at this
      omega
    · rw [(fresh_assign_step xs x).2 hnew]
      have hold : ∀ k c, unanimousAt (xs ++ [x]) k c → unanimousAt xs k c := by
        intro k c hc
        rcases (unanimousAt_concat xs x k c).1 hc with h | ⟨hk, hu, -⟩
        · exact h
        · exact absurd ⟨k, hk, hu⟩ hnew
      rcases ih with ⟨j, hj, hlater⟩ | ⟨hnone, hdef⟩
      · left
        exact ⟨j, (unanimousAt_concat xs x j _).2 (Or.inl hj),
          fun k c hk hc => hlater k c hk (hold k c hc)⟩
      · right
        exact ⟨fun j c hc => hnone j c (hold j c hc), hdef⟩

end ConsensusBuffer

/-- C1: for every sequence `xs` of values fed into a freshly constructed
`ConsensusBuffer<T, 3>`, the value read back is the common value of the most
recent three consecutive feeds that were all equal, and is `T()` when no three
consecutive feeds were all equal; in particular it is `T()` after fewer than
three feeds, and one more feed that does not complete such a triple leaves the
value read back unchanged. -/
theorem consensus_is_last_unanimous_triple {T : Type} [Inhabited T] [DecidableEq T]
    (xs : List T) :
    ((∃ j, unanimousAt xs j ((ConsensusBuffer.fresh : ConsensusBuffer T 3).assignAll xs).get ∧
        ∀ k c, j < k → ¬ unanimousAt xs k c) ∨
      ((∀ j c, ¬ unanimousAt xs j c) ∧
        ((ConsensusBuffer.fresh : ConsensusBuffer T 3).assignAll xs).get = default)) ∧
    (xs.length < 3 →
      ((ConsensusBuffer.fresh : ConsensusBuffer T 3).assignAll xs).get = default) ∧
    (∀ x, ¬ (∃ j, j + 3 = xs.length + 1 ∧ unanimousAt (xs ++ [x]) j x) →
      ((ConsensusBuffer.fresh : ConsensusBuffer T 3).assignAll (xs ++ [x])).get =
        ((ConsensusBuffer.fresh : ConsensusBuffer T 3).assignAll xs).get) := by
  refine ⟨ConsensusBuffer.fresh_assignAll_char xs, ?_, ?_⟩
  · intro hlen
    rcases ConsensusBuffer.fresh_assignAll_char xs with ⟨j, hj, -⟩ | ⟨-, hdef⟩
    · have := ConsensusBuffer.unanimousAt_length hj
      omega
    · exact hdef
  · intro x hx
    exact (ConsensusBuffer.fresh_assign_step xs x).2 hx

theorem consensus_is_last_unanimous_triple_witness :
    ((ConsensusBuffer.fresh : ConsensusBuffer Nat 3).assignAll [5, 5]).get = default :=
  (consensus_is_last_unanimous_triple [5, 5]).2.1 (by decide)

/-- C2: for every `ConsensusBuffer<T, 3>` state whose write index is below 3
(any ring contents, any counter value, any visible value) and every value `v`,
three assignments of `v` in a row make the value read back equal to `v`. -/
theorem three_equal_feeds_set_consensus {T : Type} [Inhabited T] [DecidableEq T]
    (cb : ConsensusBuffer T 3) (hptr : cb._buffer._ptr < 3) (v : T) :
    (((cb.assign v).assign v).assign v).get = v :=
  ConsensusBuffer.assign_thrice cb hptr v

theorem three_equal_feeds_set_consensus_witness :
    (1 < 3) ∧
    ((((⟨⟨fun i => 4 + i.val, 1, 2⟩, 4⟩ : ConsensusBuffer Nat 3).assign 6).assign 6).assign 6).get
      = 6 :=
  ⟨by decide, three_equal_feeds_set_consensus ⟨⟨fun i => 4 + i.val, 1, 2⟩, 4⟩ (by decide) 6⟩

/-- C3: for every `N ≥ 1` and every `k`, after `k` calls of `push` on a freshly
constructed `RingBuffer<T, N>`, `size()` returns `min(k, N)`. -/
theorem ring_size_after_pushes {T : Type} [Inhabited T] (N : Nat) (hN : 1 ≤ N) (k : Nat)
    (xs : List T) (hk : xs.length = k) :
    ((RingBuffer.fresh : RingBuffer T N).pushAll xs).size = min k N := by
  have _ := hN
  rw [← hk]
  exact (RingBuffer.fresh_pushAll_inv xs).2.1

theorem ring_size_after_pushes_witness :
    (1 ≤ 3 ∧ [7, 8, 9, 10].length = 4) ∧
    ((RingBuffer.fresh : RingBuffer Nat 3).pushAll [7, 8, 9, 10]).size = min 4 3 :=
  ⟨⟨by decide, rfl⟩, ring_size_after_pushes 3 (by decide) 4 [7, 8, 9, 10] rfl⟩

/-- C4: after pushing `xs` (0-based, so the claim's `x_j` is `xs[j-1]`) into a
freshly constructed `RingBuffer<T, N>`, slot `i` holds the last input whose
index is congruent to `i` modulo `N`, and holds `T()` when there is no such
input. Once `N` inputs were pushed, the slots hold exactly the last `N` inputs
(each of them sits in its slot, and every slot holds one of them); a further
push writes the slot `xs.length % N` only, which then held the oldest of them. -/
theorem ring_slots_after_pushes {T : Type} {N : Nat} [Inhabited T] (xs : List T) (i : Fin N) :
    (∀ j, j < xs.length → j % N = i.val →
        (∀ k, k < xs.length → k % N = i.val → k ≤ j) →
        xs[j]? = some (((RingBuffer.fresh : RingBuffer T N).pushAll xs).values i)) ∧
    ((∀ j, j < xs.length → j % N ≠ i.val) →
        ((RingBuffer.fresh : RingBuffer T N).pushAll xs).values i = default) ∧
    (N ≤ xs.length →
        (∀ j, xs.length - N ≤ j → j < xs.length → j % N = i.val →
          xs[j]? = some (((RingBuffer.fresh : RingBuffer T N).pushAll xs).values i)) ∧
        (∃ j, xs.length - N ≤ j ∧ j < xs.length ∧ j % N = i.val ∧
          xs[j]? = some (((RingBuffer.fresh : RingBuffer T N).pushAll xs).values i)) ∧
        (i.val = xs.length % N →
          xs[xs.length - N]? = some (((RingBuffer.fresh : RingBuffer T N).pushAll xs).values i))) ∧
    (∀ x, ((RingBuffer.fresh : RingBuffer T N).pushAll (xs ++ [x])).values i =
        if i.val = xs.length % N then x
        else ((RingBuffer.fresh : RingBuffer T N).pushAll xs).values i) := by
  obtain ⟨hp, -, hv, hd⟩ := RingBuffer.fresh_pushAll_inv (N := N) xs
  have hN : 0 < N := i.pos
  refine ⟨?_, ?_, ?_, ?_⟩
  · intro j hj hji hmax
    refine hv i j hj ?_ hji
    by_contra hlt
    have := hmax (j + N) (by omega) (by rw [Nat.add_mod_right]; exact hji)
    omega
  · intro hnone
    refine hd i ?_
    by_contra hlt
    exact hnone i.val (by omega) (Nat.mod_eq_of_lt i.isLt)
  · intro hfull
    refine ⟨fun j hlo hj hji => hv i j hj (by omega) hji, ?_, ?_⟩
    · obtain ⟨j, hj, hji, hjN, -⟩ :=
        RingBuffer.exists_last_in_class xs.length i (by have := i.isLt; omega)
      exact ⟨j, by omega, hj, hji, hv i j hj hjN hji⟩
    · intro hi
      refine hv i (xs.length - N) (by omega) (by omega) ?_
      rw [hi]
      exact (Nat.mod_eq_sub_mod hfull).symm
  · intro x
    rw [RingBuffer.pushAll_concat]
    simp only [RingBuffer.push, hp]

theorem ring_slots_after_pushes_witness :
    [10, 20, 30, 40, 50][4]? =
      some (((RingBuffer.fresh : RingBuffer Nat 3).pushAll [10, 20, 30, 40, 50]).values 1) :=
  (ring_slots_after_pushes [10, 20, 30, 40, 50] (1 : Fin 3)).1 4 (by decide) (by decide)
    (by intro k hk _; simp at hk; omega)

/-! ## The chip decoder -/

namespace MC14489

theorem ticks_cons (s : MC14489) (d : Bool) (ds : List Bool) :
    s.ticks (d :: ds) = (s.tick d).ticks ds := rfl

/-- While selected, a run of ticks touches the accumulator and the bit counter
only; the counter advances modulo 256. -/
theorem ticks_selected (s : MC14489) (hs : s._selected = true) (hb : s._bits < 2 ^ 8)
    (ds : List Bool) :
    ∃ acc, s.ticks ds = { s with _buffer := acc, _bits := (s._bits + ds.length) % 2 ^ 8 } := by
  induction ds generalizing s with
  | nil =>
    refine ⟨s._buffer, ?_⟩
    simp only [List.length_nil, Nat.add_zero, Nat.mod_eq_of_lt hb]
    rfl
  | cons d ds ih =>
    have ht : s.tick d = { s with
        _buffer := ((s._buffer <<< 1) + d.toNat) % 2 ^ 32
        _bits := (s._bits + 1) % 2 ^ 8 } := by
      simp [tick, hs]
    obtain ⟨acc, hacc⟩ := ih (s.tick d) (by rw [ht]; exact hs)
      (by rw [ht]; exact Nat.mod_lt _ (by norm_num))
    refine ⟨acc, ?_⟩
    rw [ticks_cons, hacc, ht]
    simp only [List.length_cons, Nat.mod_add_mod]
    congr 2
    omega

/-- Shifting in the `w` low bits of `v`, most significant first, appends them to
the accumulator (in 32-bit arithmetic). -/
theorem ticks_bitsMSB (s : MC14489) (hs : s._selected = true) (hb : s._bits < 2 ^ 8)
    (hacc : s._buffer < 2 ^ 32) (w v : Nat) :
    s.ticks (bitsMSB w v) = { s with
      _buffer := (s._buffer * 2 ^ w + v % 2 ^ w) % 2 ^ 32
      _bits := (s._bits + w) % 2 ^ 8 } := by
  induction w generalizing s with
  | zero =>
    simp only [pow_zero, Nat.mul_one, Nat.mod_one, Nat.add_zero, Nat.mod_eq_of_lt hb,
      Nat.mod_eq_of_lt hacc]
    rfl
  | succ w ih =>
    have ht : s.tick (v.testBit w) = { s with
        _buffer := ((s._buffer <<< 1) + (v.testBit w).toNat) % 2 ^ 32
        _bits := (s._bits + 1) % 2 ^ 8 } := by
      simp [tick, hs]
    rw [bitsMSB, ticks_cons, ih (s.tick (v.testBit w)) (by rw [ht]; exact hs)
      (by rw [ht]; exact Nat.mod_lt _ (by norm_num))
      (by rw [ht]; exact Nat.mod_lt _ (by norm_num)), ht]
    simp only [Nat.mod_add_mod, Nat.shiftLeft_eq, Nat.toNat_testBit, pow_one]
    have hbits : (s._bits + 1 + w) % 2 ^ 8 = (s._bits + (w + 1)) % 2 ^ 8 := by
      congr 1
      omega
    have hbuf : ((s._buffer * 2 + v / 2 ^ w % 2) % 2 ^ 32 * 2 ^ w + v % 2 ^ w) % 2 ^ 32 =
        (s._buffer * 2 ^ (w + 1) + v % 2 ^ (w + 1)) % 2 ^ 32 := by
      have hstep := @Nat.mod_pow_succ v 2 w
      have hmod : ((s._buffer * 2 + v / 2 ^ w % 2) % 2 ^ 32 * 2 ^ w + v % 2 ^ w) % 2 ^ 32 =
          ((s._buffer * 2 + v / 2 ^ w % 2) * 2 ^ w + v % 2 ^ w) % 2 ^ 32 :=
        ((Nat.mod_modEq _ _).mul_right _).add_right _
      rw [hmod, hstep]
      congr 1
      ring
    rw [hbits, hbuf]

/-- An 8-bit transaction latches its byte into the control register. -/
theorem transaction_8 (s : MC14489) (v : Nat) (hv : v < 2 ^ 8) :
    s.transaction 8 v = { s with
      _selected := false, _buffer := v, _bits := 8
      _ctrlReg := s._ctrlReg.assign v
      ctrlUpdates := (s.ctrlUpdates + 1) % 2 ^ 32 } := by
  have hsel : s.select true = { s with _selected := true, _buffer := 0, _bits := 0 } := by
    simp [select]
  rw [transaction, ticks_bitsMSB _ (by rw [hsel]) (by rw [hsel]; norm_num)
    (by rw [hsel]; norm_num), hsel]
  have h1 : (0 * 2 ^ 8 + v % 2 ^ 8) % 2 ^ 32 = v := by
    rw [Nat.mod_eq_of_lt hv]
    simp only [Nat.zero_mul, Nat.zero_add]
    exact Nat.mod_eq_of_lt (by omega)
  have hv8 : v % 256 = v := Nat.mod_eq_of_lt (by simpa using hv)
  simp only [h1]
  simp [select, hv8]

/-- A 24-bit transaction latches its value into the display register. -/
theorem transaction_24 (s : MC14489) (v : Nat) (hv : v < 2 ^ 24) :
    s.transaction 24 v = { s with
      _selected := false, _buffer := v, _bits := 24
      _displayReg := s._displayReg.assign v
      displayUpdates := (s.displayUpdates + 1) % 2 ^ 32 } := by
  have hsel : s.select true = { s with _selected := true, _buffer := 0, _bits := 0 } := by
    simp [select]
  rw [transaction, ticks_bitsMSB _ (by rw [hsel]) (by rw [hsel]; norm_num)
    (by rw [hsel]; norm_num), hsel]
  have h1 : (0 * 2 ^ 24 + v % 2 ^ 24) % 2 ^ 32 = v := by
    rw [Nat.mod_eq_of_lt hv]
    simp only [Nat.zero_mul, Nat.zero_add]
    exact Nat.mod_eq_of_lt (by omega)
  simp only [h1]
  simp [select]

/-- A deselect after a run of ticks whose length is 8 modulo 256 feeds the
control register. -/
theorem deselect_after_ticks_ctrl (s : MC14489) (ds : List Bool) (h : ds.length % 2 ^ 8 = 8) :
    ((s.select true).ticks ds)._bits = 8 ∧
    ∃ acc, ((s.select true).ticks ds).select false = { s with
      _selected := false, _buffer := acc, _bits := 8
      _ctrlReg := s._ctrlReg.assign (acc % 2 ^ 8)
      ctrlUpdates := (s.ctrlUpdates + 1) % 2 ^ 32 } := by
  have hsel : s.select true = { s with _selected := true, _buffer := 0, _bits := 0 } := by
    simp [select]
  obtain ⟨acc, hacc⟩ := ticks_selected (s.select true) (by rw [hsel]) (by rw [hsel]; norm_num) ds
  rw [hacc, hsel]
  simp only [Nat.zero_add, h]
  exact ⟨trivial, acc, by simp [select]⟩

/-- A deselect after a run of ticks whose length is 24 modulo 256 feeds the
display register. -/
theorem deselect_after_ticks_display (s : MC14489) (ds : List Bool)
    (h : ds.length % 2 ^ 8 = 24) :
    ((s.select true).ticks ds)._bits = 24 ∧
    ∃ acc, ((s.select true).ticks ds).select false = { s with
      _selected := false, _buffer := acc, _bits := 24
      _displayReg := s._displayReg.assign acc
      displayUpdates := (s.displayUpdates + 1) % 2 ^ 32 } := by
  have hsel : s.select true = { s with _selected := true, _buffer := 0, _bits := 0 } := by
    simp [select]
  obtain ⟨acc, hacc⟩ := ticks_selected (s.select true) (by rw [hsel]) (by rw [hsel]; norm_num) ds
  rw [hacc, hsel]
  simp only [Nat.zero_add, h]
  exact ⟨trivial, acc, by simp [select]⟩

/-- The write index of both rings stays inside the array along every run. -/
theorem run_ptr_lt (events : List Event) :
    (init.run events)._ctrlReg._buffer._ptr < 3 ∧
    (init.run events)._displayReg._buffer._ptr < 3 := by
  induction events using List.reverseRecOn with
  | nil => exact ⟨by decide, by decide⟩
  | append_singleton es e ih =>
    have hrun : init.run (es ++ [e]) = (init.run es).step e := by
      simp [run, List.foldl_append]
    rw [hrun]
    cases e with
    | select cs =>
      cases cs
      · simp only [step, select, Bool.false_eq_true, if_false]
        split_ifs
        · exact ⟨by
            simp only [ConsensusBuffer.assign_buffer, RingBuffer.push]
            exact Nat.mod_lt _ (by norm_num), ih.2⟩
        · exact ⟨ih.1, by
            simp only [ConsensusBuffer.assign_buffer, RingBuffer.push]
            exact Nat.mod_lt _ (by norm_num)⟩
        · exact ih
      · simpa [step, select] using ih
    | tick d =>
      simp only [step, tick]
      split_ifs
      · exact ih
      · exact ih

end MC14489

/-- C5: for `w ∈ {8, 24}`, every `v < 2 ^ w` and every prior decoder state
(with the ring write indices inside their arrays, as in every reachable state),
three consecutive identical transactions, each being `select()` read as
selected, `w` calls of `tick()` presenting the bits of `v` most significant
first, and `select()` read as deselected, leave `getCtrlReg() = v` when `w = 8`
and `getDisplayReg() = v` when `w = 24`. -/
theorem three_identical_transactions_latch (s : MC14489)
    (hc : s._ctrlReg._buffer._ptr < 3) (hd : s._displayReg._buffer._ptr < 3)
    (w v : Nat) (hw : w = 8 ∨ w = 24) (hv : v < 2 ^ w) :
    (w = 8 → (((s.transaction w v).transaction w v).transaction w v).getCtrlReg = v) ∧
    (w = 24 → (((s.transaction w v).transaction w v).transaction w v).getDisplayReg = v) := by
  have _ := hw
  constructor
  · intro h8
    subst h8
    simp only [MC14489.transaction_8 _ v hv, MC14489.getCtrlReg]
    exact ConsensusBuffer.assign_thrice s._ctrlReg hc v
  · intro h24
    subst h24
    simp only [MC14489.transaction_24 _ v hv, MC14489.getDisplayReg]
    exact ConsensusBuffer.assign_thrice s._displayReg hd v

theorem three_identical_transactions_latch_witness :
    bitsMSB 8 0xB2 = [true, false, true, true, false, false, true, false] ∧
    (((MC14489.init.transaction 8 0xB2).transaction 8 0xB2).transaction 8 0xB2).getCtrlReg
      = 0xB2 :=
  ⟨by decide,
    (three_identical_transactions_latch MC14489.init (by decide) (by decide) 8 0xB2
      (Or.inl rfl) (by decide)).1 rfl⟩

/-- C6: for every decoder state whose bit counter is neither 8 nor 24,
`select()` with the chip-select line read as deselected changes nothing except
setting the selected flag to false: accumulator, bit counter, both consensus
buffers (visible value and ring) and both update counters are unchanged. -/
theorem deselect_glitch_changes_only_selected (s : MC14489)
    (h8 : s._bits ≠ 8) (h24 : s._bits ≠ 24) :
    s.select false = { s with _selected := false } := by
  simp [MC14489.select, h8, h24]

theorem deselect_glitch_changes_only_selected_witness :
    (((MC14489.init.select true).ticks (List.replicate 10 true))._bits ≠ 8 ∧
      ((MC14489.init.select true).ticks (List.replicate 10 true))._bits ≠ 24) ∧
    ((MC14489.init.select true).ticks (List.replicate 10 true)).select false =
      { (MC14489.init.select true).ticks (List.replicate 10 true) with _selected := false } :=
  ⟨⟨by decide, by decide⟩,
    deselect_glitch_changes_only_selected
      ((MC14489.init.select true).ticks (List.replicate 10 true)) (by decide) (by decide)⟩

/-- C7 (the code at the failing input): starting from a freshly constructed
decoder, `select()` read as selected, 264 clock ticks and `select()` read as
deselected feed the control-register consensus buffer, and with 280 ticks the
display-register one, because the 8-bit counter has wrapped to 8 and to 24. -/
theorem wrapped_bit_count_is_latched :
    ((MC14489.init.select true).ticks (List.replicate 264 false))._bits = 8 ∧
    (((MC14489.init.select true).ticks (List.replicate 264 false)).select false).ctrlUpdates
      = MC14489.init.ctrlUpdates + 1 ∧
    (((MC14489.init.select true).ticks (List.replicate 264 false)).select
      false)._ctrlReg._buffer.size = MC14489.init._ctrlReg._buffer.size + 1 ∧
    ((MC14489.init.select true).ticks (List.replicate 280 false))._bits = 24 ∧
    (((MC14489.init.select true).ticks (List.replicate 280 false)).select false).displayUpdates
      = MC14489.init.displayUpdates + 1 ∧
    (((MC14489.init.select true).ticks (List.replicate 280 false)).select
      false)._displayReg._buffer.size = MC14489.init._displayReg._buffer.size + 1 := by
  obtain ⟨hb8, acc8, h8⟩ := MC14489.deselect_after_ticks_ctrl MC14489.init
    (List.replicate 264 false) (by rw [List.length_replicate]; rfl)
  obtain ⟨hb24, acc24, h24⟩ := MC14489.deselect_after_ticks_display MC14489.init
    (List.replicate 280 false) (by rw [List.length_replicate]; rfl)
  rw [h8, h24]
  refine ⟨hb8, rfl, ?_, hb24, rfl, ?_⟩
  · simp only [ConsensusBuffer.assign_buffer, RingBuffer.push, RingBuffer.size]
    decide
  · simp only [ConsensusBuffer.assign_buffer, RingBuffer.push, RingBuffer.size]
    decide

/-! ## Register decoding -/

/-- `decodeBank` returns a character for every nibble. -/
theorem decodeBank_nibble_some :
    ∀ n, n < 16 → ∀ sp : Bool, ∃ ch, MC14489.decodeBank n sp = some ch := by
  intro n hn sp
  have h : ∀ n, n < 16 → ∀ sp : Bool, (MC14489.decodeBank n sp).isSome = true := by decide
  exact Option.isSome_iff_exists.1 (h n hn sp)

/-- A mask test of two bits of the control register reads those two bits. -/
theorem special_mask_eq_bits (c : Nat) :
    (c &&& 0x42 == 0x42) = (c.testBit 6 && c.testBit 1) ∧
    (c &&& 0x44 == 0x44) = (c.testBit 6 && c.testBit 2) ∧
    (c &&& 0x48 == 0x48) = (c.testBit 6 && c.testBit 3) := by
  have hsmall : ∀ m, m < 128 →
      (m &&& 0x42 == 0x42) = (m.testBit 6 && m.testBit 1) ∧
      (m &&& 0x44 == 0x44) = (m.testBit 6 && m.testBit 2) ∧
      (m &&& 0x48 == 0x48) = (m.testBit 6 && m.testBit 3) := by decide
  have hmask : ∀ k, k &&& 127 = k → c &&& k = (c % 128) &&& k := by
    intro k hk
    have h127 : c % 128 = c &&& 127 := (Nat.and_pow_two_sub_one_eq_mod c 7).symm
    rw [h127, Nat.and_assoc, Nat.and_comm 127 k, hk]
  have hbit : ∀ i, i < 7 → c.testBit i = (c % 128).testBit i := by
    intro i hi
    have := Nat.testBit_mod_two_pow c 7 i
    simp only [hi, decide_True, Bool.true_and] at this
    exact this.symm
  have h := hsmall (c % 128) (Nat.mod_lt _ (by norm_num))
  rw [hmask 0x42 (by decide), hmask 0x44 (by decide), hmask 0x48 (by decide),
    hbit 6 (by norm_num), hbit 1 (by norm_num), hbit 2 (by norm_num), hbit 3 (by norm_num)]
  exact h

/-- The three bank extractions as arithmetic on the display register. -/
theorem bank_extract (d : Nat) :
    d &&& 0xf = d % 16 ∧ (d >>> 4) &&& 0xf = d / 16 % 16 ∧ (d >>> 8) &&& 0xf = d / 256 % 16 := by
  refine ⟨Nat.and_pow_two_sub_one_eq_mod d 4, ?_, ?_⟩
  · rw [Nat.shiftRight_eq_div_pow]
    exact Nat.and_pow_two_sub_one_eq_mod (d / 2 ^ 4) 4
  · rw [Nat.shiftRight_eq_div_pow]
    exact Nat.and_pow_two_sub_one_eq_mod (d / 2 ^ 8) 4

/-- The value of `getDisplay`: three successful bank decodings. -/
theorem getDisplay_some (self : MotorolaLedDriverSniffer) :
    ∃ a b e,
      MC14489.decodeBank (self._left.getDisplayReg &&& 0xF)
        (self._left.getCtrlReg &&& 0x42 == 0x42) = some a ∧
      MC14489.decodeBank ((self._left.getDisplayReg >>> 4) &&& 0xF)
        (self._left.getCtrlReg &&& 0x44 == 0x44) = some b ∧
      MC14489.decodeBank ((self._left.getDisplayReg >>> 8) &&& 0xF)
        (self._left.getCtrlReg &&& 0x48 == 0x48) = some e ∧
      self.getDisplay = some (a, b, e) := by
  obtain ⟨h0, h1, h2⟩ := bank_extract self._left.getDisplayReg
  obtain ⟨a, ha⟩ := decodeBank_nibble_some (self._left.getDisplayReg &&& 0xF)
    (by rw [h0]; exact Nat.mod_lt _ (by norm_num)) (self._left.getCtrlReg &&& 0x42 == 0x42)
  obtain ⟨b, hb⟩ := decodeBank_nibble_some ((self._left.getDisplayReg >>> 4) &&& 0xF)
    (by rw [h1]; exact Nat.mod_lt _ (by norm_num)) (self._left.getCtrlReg &&& 0x44 == 0x44)
  obtain ⟨e, he⟩ := decodeBank_nibble_some ((self._left.getDisplayReg >>> 8) &&& 0xF)
    (by rw [h2]; exact Nat.mod_lt _ (by norm_num)) (self._left.getCtrlReg &&& 0x48 == 0x48)
  refine ⟨a, b, e, ha, hb, he, ?_⟩
  simp only [MotorolaLedDriverSniffer.getDisplay]
  rw [ha, hb, he]
  rfl

/-- C8: for every nibble `n` in 0..15, `decodeBank(n, false)` is `'0' + n` when
`n < 10` and `'A' + (n - 10)` otherwise, and `decodeBank(n, true)` is entry `n`
of the table `[' ','c','H','h','J','L','n','o','P','r','U','u','y','-','=','o']`. -/
theorem decodeBank_tables (n : Nat) (hn : n < 16) :
    MC14489.decodeBank n false =
      some (if n < 10 then Char.ofNat ('0'.toNat + n) else Char.ofNat ('A'.toNat + (n - 10))) ∧
    MC14489.decodeBank n true =
      [' ', 'c', 'H', 'h', 'J', 'L', 'n', 'o', 'P', 'r', 'U', 'u', 'y', '-', '=', 'o'][n]? := by
  revert n
  decide

theorem decodeBank_tables_witness :
    MC14489.decodeBank 0x0 true = some ' ' ∧ MC14489.decodeBank 0xD true = some '-' ∧
    MC14489.decodeBank 0xA false = some 'A' ∧ MC14489.decodeBank 5 false = some '5' :=
  ⟨(decodeBank_tables 0x0 (by decide)).2, (decodeBank_tables 0xD (by decide)).2,
    (decodeBank_tables 0xA (by decide)).1, (decodeBank_tables 5 (by decide)).1⟩

/-- C9: with `d` the left display register and `c` the left control register,
`getDisplay` returns the three characters `decodeBank(d & 0xF, (c & 0x42) == 0x42)`,
`decodeBank((d >> 4) & 0xF, (c & 0x44) == 0x44)` and
`decodeBank((d >> 8) & 0xF, (c & 0x48) == 0x48)`; the banks are bits 0-3, 4-7
and 8-11 of `d`; a display register that agrees with `d` on bits 0-11 gives the
same result; and bank `k` uses the special table iff bit 6 and bit `k` of `c`
are both set. -/
theorem getDisplay_banks (self : MotorolaLedDriverSniffer) (d c : Nat)
    (hd : self._left.getDisplayReg = d) (hc : self._left.getCtrlReg = c) :
    (∃ a b e,
        MC14489.decodeBank (d &&& 0xF) (c &&& 0x42 == 0x42) = some a ∧
        MC14489.decodeBank ((d >>> 4) &&& 0xF) (c &&& 0x44 == 0x44) = some b ∧
        MC14489.decodeBank ((d >>> 8) &&& 0xF) (c &&& 0x48 == 0x48) = some e ∧
        self.getDisplay = some (a, b, e)) ∧
    (d &&& 0xF = d % 2 ^ 4 ∧ (d >>> 4) &&& 0xF = d / 2 ^ 4 % 2 ^ 4 ∧
        (d >>> 8) &&& 0xF = d / 2 ^ 8 % 2 ^ 4) ∧
    (∀ other : MotorolaLedDriverSniffer, other._left.getCtrlReg = c →
        other._left.getDisplayReg % 2 ^ 12 = d % 2 ^ 12 →
        other.getDisplay = self.getDisplay) ∧
    ((c &&& 0x42 == 0x42) = (c.testBit 6 && c.testBit 1) ∧
      (c &&& 0x44 == 0x44) = (c.testBit 6 && c.testBit 2) ∧
      (c &&& 0x48 == 0x48) = (c.testBit 6 && c.testBit 3)) := by
  obtain ⟨h0, h1, h2⟩ := bank_extract d
  refine ⟨?_, ⟨h0, h1, h2⟩, ?_, special_mask_eq_bits c⟩
  · have h := getDisplay_some self
    rw [hd, hc] at h
    exact h
  · intro other hoc hod
    obtain ⟨g0, g1, g2⟩ := bank_extract other._left.getDisplayReg
    simp only [MotorolaLedDriverSniffer.getDisplay, hd, hc, hoc]
    rw [g0, g1, g2, h0, h1, h2]
    have e0 : other._left.getDisplayReg % 16 = d % 16 := by omega
    have e1 : other._left.getDisplayReg / 16 % 16 = d / 16 % 16 := by omega
    have e2 : other._left.getDisplayReg / 256 % 16 = d / 256 % 16 := by omega
    rw [e0, e1, e2]

theorem getDisplay_banks_witness :
    (MotorolaLedDriverSniffer.withRegisters 0x43 0x540 0 0).getDisplay = some (' ', '4', '5') := by
  obtain ⟨a, b, e, ha, hb, he, h⟩ :=
    (getDisplay_banks (MotorolaLedDriverSniffer.withRegisters 0x43 0x540 0 0) 0x540 0x43
      rfl rfl).1
  have ha2 : MC14489.decodeBank (0x540 &&& 0xF) (0x43 &&& 0x42 == 0x42) = some ' ' := by decide
  have hb2 : MC14489.decodeBank ((0x540 >>> 4) &&& 0xF) (0x43 &&& 0x44 == 0x44) = some '4' := by
    decide
  have he2 : MC14489.decodeBank ((0x540 >>> 8) &&& 0xF) (0x43 &&& 0x48 == 0x48) = some '5' := by
    decide
  rw [ha2] at ha
  rw [hb2] at hb
  rw [he2] at he
  cases ha
  cases hb
  cases he
  exact h

/-- C10: with `c` the left control register and `(a, b, e)` the three decoded
display characters, `formatTime` returns `" "` if bit 0 of `c` is 0; otherwise
`"---"` if `a = '-'`; otherwise `" "` if `e = ' '`; otherwise, if `a` is not a
space, `a`, `"h "`, `b` unless `b` is a space, `e`, `"m"`; and if `a` is a
space, `b` unless `b` is a space, `e`, `" min"`. -/
theorem formatTime_cases (self : MotorolaLedDriverSniffer) :
    ∃ a b e, self.getDisplay = some (a, b, e) ∧
      self.formatTime = some (
        if self._left.getCtrlReg.testBit 0 = false then " "
        else if a = '-' then "---"
        else if e = ' ' then " "
        else if a ≠ ' ' then
          String.singleton a ++ "h " ++ (if b = ' ' then "" else String.singleton b) ++
            String.singleton e ++ "m"
        else
          (if b = ' ' then "" else String.singleton b) ++ String.singleton e ++ " min") := by
  obtain ⟨a, b, e, -, -, -, hdisp⟩ := getDisplay_some self
  refine ⟨a, b, e, hdisp, ?_⟩
  have hoff : self.isDisplayOff = true ↔ self._left.getCtrlReg.testBit 0 = false := by
    simp only [MotorolaLedDriverSniffer.isDisplayOff, Nat.and_one_is_mod, Nat.testBit_zero,
      beq_iff_eq, decide_eq_false_iff_not]
    omega
  by_cases hbit : self._left.getCtrlReg.testBit 0 = false
  · have h := hoff.2 hbit
    simp [MotorolaLedDriverSniffer.formatTime, h, hbit]
  · have h : self.isDisplayOff = false := by
      cases hh : self.isDisplayOff
      · rfl
      · exact absurd (hoff.1 hh) hbit
    simp only [MotorolaLedDriverSniffer.formatTime, h, hdisp, hbit]
    by_cases ha : a = '-' <;> by_cases he : e = ' ' <;> by_cases ha2 : a = ' ' <;>
      by_cases hb : b = ' ' <;>
      simp [ha, he, ha2, hb, String.ext_iff, String.singleton]

theorem formatTime_cases_witness :
    (MotorolaLedDriverSniffer.withRegisters 0x43 0x540 0 0).formatTime = some "45 min" := by
  obtain ⟨a, b, e, hdisp, hf⟩ :=
    formatTime_cases (MotorolaLedDriverSniffer.withRegisters 0x43 0x540 0 0)
  have hconc : (MotorolaLedDriverSniffer.withRegisters 0x43 0x540 0 0).getDisplay
      = some (' ', '4', '5') := by decide
  rw [hconc] at hdisp
  cases hdisp
  rw [hf]
  decide

/-! ## The state string -/

namespace MotorolaLedDriverSniffer

/-- `decodeState` always returns, with the door-open test first and the fault
test second. -/
theorem decodeState_eq (self : MotorolaLedDriverSniffer) :
    ∃ a b e, self.getDisplay = some (a, b, e) ∧
      self.decodeState = some (
        if self.isDisplayOff then State.MIELE_DOOR_OPEN
        else if a = '-' then State.MIELE_FAULT
        else State.MIELE_NORMAL) := by
  obtain ⟨a, b, e, -, -, -, hdisp⟩ := getDisplay_some self
  refine ⟨a, b, e, hdisp, ?_⟩
  cases hoff : self.isDisplayOff
  · by_cases ha : a = '-' <;> simp [decodeState, hoff, hdisp, ha]
  · simp [decodeState, hoff]

/-- Running a continuation after the `switch (progress)` is running it in each
of its branches. -/
theorem progress_switch_bind (p : Nat) (gd : Option DisplayArray)
    (K : List String → Option String) :
    (if p = 0x10 then K ["Pre-washing"]
      else if p = 0x20 then K ["Washing"]
      else if p = 0x40 then K ["Rinsing"]
      else if p = 0x80 then K ["Paused Rinse"]
      else if p = 0x01 then K ["Pumping"]
      else if p = 0x02 then K ["Spinning"]
      else if p = 0x04 then
        gd.bind (fun disp => if disp = (' ', ' ', '0') then K ["Finished"] else K ["Idle"])
      else if p = 0 then K ["Ready"]
      else K []) =
    (if p = 0x10 then some ["Pre-washing"]
      else if p = 0x20 then some ["Washing"]
      else if p = 0x40 then some ["Rinsing"]
      else if p = 0x80 then some ["Paused Rinse"]
      else if p = 0x01 then some ["Pumping"]
      else if p = 0x02 then some ["Spinning"]
      else if p = 0x04 then
        gd.bind (fun disp => if disp = (' ', ' ', '0') then some ["Finished"] else some ["Idle"])
      else if p = 0 then some ["Ready"]
      else some []).bind K := by
  by_cases h1 : p = 0x10
  · rw [if_pos h1, if_pos h1]; rfl
  rw [if_neg h1, if_neg h1]
  by_cases h2 : p = 0x20
  · rw [if_pos h2, if_pos h2]; rfl
  rw [if_neg h2, if_neg h2]
  by_cases h3 : p = 0x40
  · rw [if_pos h3, if_pos h3]; rfl
  rw [if_neg h3, if_neg h3]
  by_cases h4 : p = 0x80
  · rw [if_pos h4, if_pos h4]; rfl
  rw [if_neg h4, if_neg h4]
  by_cases h5 : p = 0x01
  · rw [if_pos h5, if_pos h5]; rfl
  rw [if_neg h5, if_neg h5]
  by_cases h6 : p = 0x02
  · rw [if_pos h6, if_pos h6]; rfl
  rw [if_neg h6, if_neg h6]
  by_cases h7 : p = 0x04
  · rw [if_pos h7, if_pos h7]
    cases gd with
    | none => rfl
    | some disp =>
      by_cases hdisp : disp = (' ', ' ', '0')
      · simp only [Option.some_bind, hdisp, if_true]
      · simp only [Option.some_bind, hdisp, if_false]
  rw [if_neg h7, if_neg h7]
  by_cases h8 : p = 0
  · rw [if_pos h8, if_pos h8]; rfl
  rw [if_neg h8, if_neg h8]
  rfl


/-- After the phase label come the centrifuge label and the option labels. -/
theorem labelsAfterPhase_eq (rdispreg : Nat) (states : List String) :
    labelsAfterPhase rdispreg states =
      states ++ centrifugeLabels rdispreg ++ optionLabels rdispreg := by
  have hcent : (if (rdispreg &&& 0x7e0000) >>> 16 = 0x02 then states ++ ["Ø 1600"]
      else if (rdispreg &&& 0x7e0000) >>> 16 = 0x04 then states ++ ["Ø 1400"]
      else if (rdispreg &&& 0x7e0000) >>> 16 = 0x08 then states ++ ["Ø 1200"]
      else if (rdispreg &&& 0x7e0000) >>> 16 = 0x50 then states ++ ["Ø 900"]
      else if (rdispreg &&& 0x7e0000) >>> 16 = 0x40 then states ++ ["Ø 600"]
      else if (rdispreg &&& 0x7e0000) >>> 16 = 0x30 then states ++ ["Ø 400"]
      else if (rdispreg &&& 0x7e0000) >>> 16 = 0x20 then states ++ ["Ø Rinse-pause"]
      else if (rdispreg &&& 0x7e0000) >>> 16 = 0x10 then states ++ ["Ø No"]
      else states) = states ++ centrifugeLabels rdispreg := by
    unfold centrifugeLabels
    generalize (rdispreg &&& 0x7e0000) >>> 16 = cs
    dsimp only
    split_ifs <;> simp
  unfold labelsAfterPhase optionLabels
  simp only [hcent]
  split_ifs <;> simp


/-- `formatState` cut at the end of `switch (state)`. -/
theorem formatState_eq_bind (self : MotorolaLedDriverSniffer) :
    self.formatState = (self.phaseLabels).bind (fun states =>
      some (joinLabels (labelsAfterPhase self._right.getDisplayReg states))) := by
  unfold formatState phaseLabels
  generalize self.decodeState = ds
  generalize self.getDisplay = gd
  cases ds with
  | none => rfl
  | some st =>
    cases st with
    | MIELE_DOOR_OPEN => rfl
    | MIELE_FAULT => rfl
    | MIELE_NORMAL =>
      exact progress_switch_bind
        (((self._right.getDisplayReg &&& 0xf000) >>> 8) ||| (self._right.getDisplayReg &&& 0x7))
        gd (fun states => some (joinLabels (labelsAfterPhase self._right.getDisplayReg states)))

/-- `formatState` is the join of the phase label, the centrifuge label and the
option labels, in this order. -/
theorem formatState_eq_join (self : MotorolaLedDriverSniffer) :
    self.formatState = (self.phaseLabels).map (fun phase =>
      joinLabels (phase ++ centrifugeLabels self._right.getDisplayReg ++
        optionLabels self._right.getDisplayReg)) := by
  rw [formatState_eq_bind]
  cases self.phaseLabels with
  | none => rfl
  | some phase => simp [labelsAfterPhase_eq]

/-- The display-off test reads bit 0 of the left control register. -/
theorem isDisplayOff_eq (self : MotorolaLedDriverSniffer) :
    self.isDisplayOff = !(self._left.getCtrlReg.testBit 0) := by
  simp only [isDisplayOff, Nat.and_one_is_mod, Nat.testBit_zero]
  rcases Nat.mod_two_eq_zero_or_one self._left.getCtrlReg with h | h <;> simp [h]

/-- The `switch (progress)` of the normal state as a table. -/
theorem progress_switch_some (p : Nat) (disp : DisplayArray) :
    (if p = 0x10 then some ["Pre-washing"]
      else if p = 0x20 then some ["Washing"]
      else if p = 0x40 then some ["Rinsing"]
      else if p = 0x80 then some ["Paused Rinse"]
      else if p = 0x01 then some ["Pumping"]
      else if p = 0x02 then some ["Spinning"]
      else if p = 0x04 then
        (some disp).bind (fun disp =>
          if disp = (' ', ' ', '0') then some ["Finished"] else some ["Idle"])
      else if p = 0 then some ["Ready"]
      else some []) =
    some (if p = 0x10 then ["Pre-washing"]
      else if p = 0x20 then ["Washing"]
      else if p = 0x40 then ["Rinsing"]
      else if p = 0x80 then ["Paused Rinse"]
      else if p = 0x01 then ["Pumping"]
      else if p = 0x02 then ["Spinning"]
      else if p = 0x04 then (if disp = (' ', ' ', '0') then ["Finished"] else ["Idle"])
      else if p = 0x00 then ["Ready"]
      else []) := by
  by_cases h1 : p = 0x10
  · rw [if_pos h1, if_pos h1]
  rw [if_neg h1, if_neg h1]
  by_cases h2 : p = 0x20
  · rw [if_pos h2, if_pos h2]
  rw [if_neg h2, if_neg h2]
  by_cases h3 : p = 0x40
  · rw [if_pos h3, if_pos h3]
  rw [if_neg h3, if_neg h3]
  by_cases h4 : p = 0x80
  · rw [if_pos h4, if_pos h4]
  rw [if_neg h4, if_neg h4]
  by_cases h5 : p = 0x01
  · rw [if_pos h5, if_pos h5]
  rw [if_neg h5, if_neg h5]
  by_cases h6 : p = 0x02
  · rw [if_pos h6, if_pos h6]
  rw [if_neg h6, if_neg h6]
  by_cases h7 : p = 0x04
  · rw [if_pos h7, if_pos h7, Option.some_bind]
    by_cases hd : disp = (' ', ' ', '0')
    · rw [if_pos hd, if_pos hd]
    · rw [if_neg hd, if_neg hd]
  rw [if_neg h7, if_neg h7]
  by_cases h8 : p = 0
  · rw [if_pos h8, if_pos h8]
  rw [if_neg h8, if_neg h8]

/-- A property of both branches is a property of the conditional. -/
theorem holds_ite {α : Type} (P : α → Prop) (c : Prop) [Decidable c] (x y : α)
    (hx : P x) (hy : P y) : P (if c then x else y) := by
  by_cases h : c
  · rw [if_pos h]; exact hx
  · rw [if_neg h]; exact hy

theorem atMostOneLabel_singleton (x : String) (hx : 0 < x.length) : atMostOneLabel [x] :=
  ⟨Nat.le_refl _, fun s hs => by rw [List.mem_singleton.1 hs]; exact hx⟩

theorem atMostOneLabel_nil : atMostOneLabel [] :=
  ⟨Nat.zero_le _, fun s hs => absurd hs (List.not_mem_nil s)⟩

/-- The phase table holds at most one label, and no empty one. -/
theorem phase_table_shape (c0 c1 c2 : Prop) [Decidable c0] [Decidable c1] [Decidable c2]
    (p : Nat) :
    atMostOneLabel (if c0 then ["Door open"]
      else if c1 then ["Fault"]
      else if p = 0x10 then ["Pre-washing"]
      else if p = 0x20 then ["Washing"]
      else if p = 0x40 then ["Rinsing"]
      else if p = 0x80 then ["Paused Rinse"]
      else if p = 0x01 then ["Pumping"]
      else if p = 0x02 then ["Spinning"]
      else if p = 0x04 then (if c2 then ["Finished"] else ["Idle"])
      else if p = 0x00 then ["Ready"]
      else []) :=
  holds_ite atMostOneLabel _ _ _ (atMostOneLabel_singleton _ (by decide)) <|
  holds_ite atMostOneLabel _ _ _ (atMostOneLabel_singleton _ (by decide)) <|
  holds_ite atMostOneLabel _ _ _ (atMostOneLabel_singleton _ (by decide)) <|
  holds_ite atMostOneLabel _ _ _ (atMostOneLabel_singleton _ (by decide)) <|
  holds_ite atMostOneLabel _ _ _ (atMostOneLabel_singleton _ (by decide)) <|
  holds_ite atMostOneLabel _ _ _ (atMostOneLabel_singleton _ (by decide)) <|
  holds_ite atMostOneLabel _ _ _ (atMostOneLabel_singleton _ (by decide)) <|
  holds_ite atMostOneLabel _ _ _ (atMostOneLabel_singleton _ (by decide)) <|
  holds_ite atMostOneLabel _ _ _
    (holds_ite atMostOneLabel _ _ _ (atMostOneLabel_singleton _ (by decide))
      (atMostOneLabel_singleton _ (by decide))) <|
  holds_ite atMostOneLabel _ _ _ (atMostOneLabel_singleton _ (by decide)) atMostOneLabel_nil


/-- The phase label as a table over bit 0 of the left control register, the
decoded left display and the progress code. -/
theorem phaseLabels_table (self : MotorolaLedDriverSniffer) :
    ∃ a b e, self.getDisplay = some (a, b, e) ∧
      self.phaseLabels = some (
        if self._left.getCtrlReg.testBit 0 = false then ["Door open"]
        else if a = '-' then ["Fault"]
        else if ((self._right.getDisplayReg &&& 0xF000) >>> 8) |||
            (self._right.getDisplayReg &&& 0x7) = 0x10 then ["Pre-washing"]
        else if ((self._right.getDisplayReg &&& 0xF000) >>> 8) |||
            (self._right.getDisplayReg &&& 0x7) = 0x20 then ["Washing"]
        else if ((self._right.getDisplayReg &&& 0xF000) >>> 8) |||
            (self._right.getDisplayReg &&& 0x7) = 0x40 then ["Rinsing"]
        else if ((self._right.getDisplayReg &&& 0xF000) >>> 8) |||
            (self._right.getDisplayReg &&& 0x7) = 0x80 then ["Paused Rinse"]
        else if ((self._right.getDisplayReg &&& 0xF000) >>> 8) |||
            (self._right.getDisplayReg &&& 0x7) = 0x01 then ["Pumping"]
        else if ((self._right.getDisplayReg &&& 0xF000) >>> 8) |||
            (self._right.getDisplayReg &&& 0x7) = 0x02 then ["Spinning"]
        else if ((self._right.getDisplayReg &&& 0xF000) >>> 8) |||
            (self._right.getDisplayReg &&& 0x7) = 0x04 then
          (if (a, b, e) = (' ', ' ', '0') then ["Finished"] else ["Idle"])
        else if ((self._right.getDisplayReg &&& 0xF000) >>> 8) |||
            (self._right.getDisplayReg &&& 0x7) = 0x00 then ["Ready"]
        else []) := by
  obtain ⟨a, b, e, hdisp, hst⟩ := decodeState_eq self
  refine ⟨a, b, e, hdisp, ?_⟩
  rw [isDisplayOff_eq] at hst
  unfold phaseLabels
  cases hbit : self._left.getCtrlReg.testBit 0
  · rw [hbit] at hst
    rw [hst, if_pos rfl]
    rfl
  · rw [hbit] at hst
    have hnf : ¬ (true = false) := by decide
    rw [if_neg hnf]
    by_cases ha : a = '-'
    · rw [if_pos ha]
      rw [if_neg (by decide), if_pos ha] at hst
      rw [hst]
      rfl
    · rw [if_neg ha]
      rw [if_neg (by decide), if_neg ha] at hst
      rw [hst, hdisp]
      exact progress_switch_some _ (a, b, e)

/-- The phase part holds at most one label, and no empty one. -/
theorem phaseLabels_shape (self : MotorolaLedDriverSniffer) :
    ∃ phase, self.phaseLabels = some phase ∧ atMostOneLabel phase := by
  obtain ⟨a, b, e, -, h⟩ := phaseLabels_table self
  exact ⟨_, h, phase_table_shape _ _ _ _⟩

/-- The centrifuge part holds at most one label, and no empty one. -/
theorem centrifugeLabels_shape (rdispreg : Nat) : atMostOneLabel (centrifugeLabels rdispreg) :=
  holds_ite atMostOneLabel _ _ _ (atMostOneLabel_singleton _ (by decide)) <|
  holds_ite atMostOneLabel _ _ _ (atMostOneLabel_singleton _ (by decide)) <|
  holds_ite atMostOneLabel _ _ _ (atMostOneLabel_singleton _ (by decide)) <|
  holds_ite atMostOneLabel _ _ _ (atMostOneLabel_singleton _ (by decide)) <|
  holds_ite atMostOneLabel _ _ _ (atMostOneLabel_singleton _ (by decide)) <|
  holds_ite atMostOneLabel _ _ _ (atMostOneLabel_singleton _ (by decide)) <|
  holds_ite atMostOneLabel _ _ _ (atMostOneLabel_singleton _ (by decide)) <|
  holds_ite atMostOneLabel _ _ _ (atMostOneLabel_singleton _ (by decide)) atMostOneLabel_nil


/-- The final loop from a non-empty stream is the library join continued. -/
theorem foldl_join_eq_go (labels : List String) (acc : String) (hacc : 0 < acc.length) :
    labels.foldl (fun str state => (if str.length > 0 then str ++ ", " else str) ++ state) acc
      = String.intercalate.go acc ", " labels := by
  induction labels generalizing acc with
  | nil => rfl
  | cons x xs ih =>
    rw [List.foldl_cons, if_pos hacc, String.intercalate.go]
    exact ih _ (by rw [String.length_append, String.length_append]; omega)

/-- The final loop of `formatState` joins non-empty labels with `", "`. -/
theorem joinLabels_eq_intercalate (labels : List String)
    (h : ∀ s ∈ labels, 0 < String.length s) :
    joinLabels labels = ", ".intercalate labels := by
  cases labels with
  | nil => rfl
  | cons x xs =>
    have hx : 0 < x.length := h x (List.mem_cons_self x xs)
    have hnot : ¬ ("".length > 0) := by decide
    have hempty : "" ++ x = x := by
      apply String.ext
      rw [String.data_append]
      rfl
    rw [joinLabels, List.foldl_cons, if_neg hnot, hempty, String.intercalate]
    exact foldl_join_eq_go xs x hx

/-- A mask test of one bit reads that bit. -/
theorem and_two_pow_ne_zero (r i : Nat) : r &&& 2 ^ i ≠ 0 ↔ r.testBit i = true := by
  rw [Nat.and_two_pow]
  cases r.testBit i
  · simp
  · simp

/-- The option labels read bits 8, 6, 7 and 16 of the right display register. -/
theorem optionLabels_bits (r : Nat) :
    optionLabels r =
      (if r.testBit 8 then ["Pre-wash"] else []) ++
      (if r.testBit 6 then ["Short"] else []) ++
      (if r.testBit 7 then ["Wasser Plus"] else []) ++
      (if r.testBit 16 then ["Summer"] else []) := by
  have h8 : (if r &&& 0x100 ≠ 0 then ["Pre-wash"] else []) =
      (if r.testBit 8 = true then ["Pre-wash"] else []) :=
    if_congr (and_two_pow_ne_zero r 8) rfl rfl
  have h6 : (if r &&& 0x40 ≠ 0 then ["Short"] else []) =
      (if r.testBit 6 = true then ["Short"] else []) :=
    if_congr (and_two_pow_ne_zero r 6) rfl rfl
  have h7 : (if r &&& 0x80 ≠ 0 then ["Wasser Plus"] else []) =
      (if r.testBit 7 = true then ["Wasser Plus"] else []) :=
    if_congr (and_two_pow_ne_zero r 7) rfl rfl
  have h16 : (if r &&& 0x010000 ≠ 0 then ["Summer"] else []) =
      (if r.testBit 16 = true then ["Summer"] else []) :=
    if_congr (and_two_pow_ne_zero r 16) rfl rfl
  unfold optionLabels
  rw [h8, h6, h7, h16]

/-- No option label is empty. -/
theorem optionLabels_nonempty (r : Nat) : ∀ s ∈ optionLabels r, 0 < String.length s := by
  have hone : ∀ (c : Prop) [Decidable c] (x : String), 0 < x.length →
      ∀ s ∈ (if c then [x] else []), 0 < String.length s := by
    intro c _ x hx
    exact holds_ite (fun labels : List String => ∀ s ∈ labels, 0 < String.length s) c [x] []
      (fun s hs => by rw [List.mem_singleton.1 hs]; exact hx)
      (fun s hs => absurd hs (List.not_mem_nil s))
  intro s hs
  unfold optionLabels at hs
  rw [List.mem_append, List.mem_append, List.mem_append] at hs
  rcases hs with ((hs | hs) | hs) | hs
  · exact hone _ _ (by decide) s hs
  · exact hone _ _ (by decide) s hs
  · exact hone _ _ (by decide) s hs
  · exact hone _ _ (by decide) s hs

/-- The bits of the centrifuge mask. -/
theorem centrifuge_mask_bit (j : Nat) (hj : ¬ (17 ≤ j ∧ j ≤ 22)) :
    (0x7e0000 : Nat).testBit j = false := by
  by_cases hlo : j < 17
  · interval_cases j <;> rfl
  · have hhi : 23 ≤ j := by omega
    exact Nat.testBit_lt_two_pow
      (lt_of_lt_of_le (by norm_num) (Nat.pow_le_pow_right (by norm_num) hhi))

/-- The centrifuge field depends on bits 17-22 only. -/
theorem centrifuge_field_congr (r r2 : Nat)
    (h : ∀ i, 17 ≤ i → i ≤ 22 → r2.testBit i = r.testBit i) :
    (r2 &&& 0x7e0000) >>> 16 = (r &&& 0x7e0000) >>> 16 := by
  apply Nat.eq_of_testBit_eq
  intro i
  rw [Nat.testBit_shiftRight, Nat.testBit_shiftRight, Nat.testBit_and, Nat.testBit_and]
  by_cases hi : 17 ≤ 16 + i ∧ 16 + i ≤ 22
  · rw [h _ hi.1 hi.2]
  · rw [centrifuge_mask_bit _ hi, Bool.and_false, Bool.and_false]


end MotorolaLedDriverSniffer

/-- C11: the first label of `formatState` is the phase label: `"Door open"` when
bit 0 of the left control register is 0, else `"Fault"` when the first decoded
left display character is `'-'`, and otherwise the label of the progress code
`p = ((rightDisplay & 0xF000) >> 8) | (rightDisplay & 0x7)`: 0x10 Pre-washing,
0x20 Washing, 0x40 Rinsing, 0x80 Paused Rinse, 0x01 Pumping, 0x02 Spinning,
0x04 Finished iff the decoded left display is `[' ', ' ', '0']` and Idle
otherwise, 0x00 Ready, and no phase label for any other `p`. -/
theorem formatState_phase_label (self : MotorolaLedDriverSniffer) :
    ∃ a b e, self.getDisplay = some (a, b, e) ∧
      self.formatState = some (MotorolaLedDriverSniffer.joinLabels (
        (if self._left.getCtrlReg.testBit 0 = false then ["Door open"]
        else if a = '-' then ["Fault"]
        else if ((self._right.getDisplayReg &&& 0xF000) >>> 8) |||
            (self._right.getDisplayReg &&& 0x7) = 0x10 then ["Pre-washing"]
        else if ((self._right.getDisplayReg &&& 0xF000) >>> 8) |||
            (self._right.getDisplayReg &&& 0x7) = 0x20 then ["Washing"]
        else if ((self._right.getDisplayReg &&& 0xF000) >>> 8) |||
            (self._right.getDisplayReg &&& 0x7) = 0x40 then ["Rinsing"]
        else if ((self._right.getDisplayReg &&& 0xF000) >>> 8) |||
            (self._right.getDisplayReg &&& 0x7) = 0x80 then ["Paused Rinse"]
        else if ((self._right.getDisplayReg &&& 0xF000) >>> 8) |||
            (self._right.getDisplayReg &&& 0x7) = 0x01 then ["Pumping"]
        else if ((self._right.getDisplayReg &&& 0xF000) >>> 8) |||
            (self._right.getDisplayReg &&& 0x7) = 0x02 then ["Spinning"]
        else if ((self._right.getDisplayReg &&& 0xF000) >>> 8) |||
            (self._right.getDisplayReg &&& 0x7) = 0x04 then
          (if (a, b, e) = (' ', ' ', '0') then ["Finished"] else ["Idle"])
        else if ((self._right.getDisplayReg &&& 0xF000) >>> 8) |||
            (self._right.getDisplayReg &&& 0x7) = 0x00 then ["Ready"]
        else []) ++
        MotorolaLedDriverSniffer.centrifugeLabels self._right.getDisplayReg ++
        MotorolaLedDriverSniffer.optionLabels self._right.getDisplayReg)) := by
  obtain ⟨a, b, e, hdisp, hphase⟩ := MotorolaLedDriverSniffer.phaseLabels_table self
  refine ⟨a, b, e, hdisp, ?_⟩
  rw [MotorolaLedDriverSniffer.formatState_eq_join, hphase]
  rfl

theorem formatState_phase_label_witness :
    (MotorolaLedDriverSniffer.withRegisters 0x01 0x000 0 0x2000).formatState
      = some "Washing" := by
  obtain ⟨a, b, e, hdisp, hf⟩ :=
    formatState_phase_label (MotorolaLedDriverSniffer.withRegisters 0x01 0x000 0 0x2000)
  have hconc : (MotorolaLedDriverSniffer.withRegisters 0x01 0x000 0 0x2000).getDisplay
      = some ('0', '0', '0') := by decide
  rw [hconc] at hdisp
  cases hdisp
  exact hf.trans (by decide)


/-- C12: whatever the phase part, `formatState` appends exactly one centrifuge label
when the field `f = (rightDisplay & 0x7E0000) >> 16` is one of the keys 0x02,
0x04, 0x08, 0x50, 0x40, 0x30, 0x20, 0x10, and none for every other `f`; a right
display register that agrees on bits 17-22 has the same field and gets the same
centrifuge label. -/
theorem formatState_centrifuge_label (self : MotorolaLedDriverSniffer) :
    (∃ phase, self.phaseLabels = some phase ∧
      self.formatState = some (MotorolaLedDriverSniffer.joinLabels (
        phase ++
        (if (self._right.getDisplayReg &&& 0x7E0000) >>> 16 = 0x02 then ["Ø 1600"]
        else if (self._right.getDisplayReg &&& 0x7E0000) >>> 16 = 0x04 then ["Ø 1400"]
        else if (self._right.getDisplayReg &&& 0x7E0000) >>> 16 = 0x08 then ["Ø 1200"]
        else if (self._right.getDisplayReg &&& 0x7E0000) >>> 16 = 0x50 then ["Ø 900"]
        else if (self._right.getDisplayReg &&& 0x7E0000) >>> 16 = 0x40 then ["Ø 600"]
        else if (self._right.getDisplayReg &&& 0x7E0000) >>> 16 = 0x30 then ["Ø 400"]
        else if (self._right.getDisplayReg &&& 0x7E0000) >>> 16 = 0x20 then ["Ø Rinse-pause"]
        else if (self._right.getDisplayReg &&& 0x7E0000) >>> 16 = 0x10 then ["Ø No"]
        else []) ++
        MotorolaLedDriverSniffer.optionLabels self._right.getDisplayReg))) ∧
    (∀ r2 : Nat,
      (∀ i, 17 ≤ i → i ≤ 22 → r2.testBit i = self._right.getDisplayReg.testBit i) →
      (r2 &&& 0x7E0000) >>> 16 = (self._right.getDisplayReg &&& 0x7E0000) >>> 16 ∧
      MotorolaLedDriverSniffer.centrifugeLabels r2 =
        MotorolaLedDriverSniffer.centrifugeLabels self._right.getDisplayReg) := by
  constructor
  · obtain ⟨phase, hphase, -⟩ := MotorolaLedDriverSniffer.phaseLabels_shape self
    refine ⟨phase, hphase, ?_⟩
    rw [MotorolaLedDriverSniffer.formatState_eq_join, hphase]
    rfl
  · intro r2 h
    have hf := MotorolaLedDriverSniffer.centrifuge_field_congr self._right.getDisplayReg r2 h
    refine ⟨hf, ?_⟩
    unfold MotorolaLedDriverSniffer.centrifugeLabels
    rw [hf]

theorem formatState_centrifuge_label_witness :
    (MotorolaLedDriverSniffer.withRegisters 0 0 0 0x040000).formatState
      = some "Door open, Ø 1400" := by
  obtain ⟨phase, hphase, hf⟩ :=
    (formatState_centrifuge_label (MotorolaLedDriverSniffer.withRegisters 0 0 0 0x040000)).1
  have hconc : (MotorolaLedDriverSniffer.withRegisters 0 0 0 0x040000).phaseLabels
      = some ["Door open"] := by decide
  rw [hconc] at hphase
  cases hphase
  exact hf.trans (by decide)

/-- C13: the string returned by `formatState` is the labels joined with `", "` (no
leading or trailing separator, the empty string for no label) of: the phase
label if any, the centrifuge label if any, `"Pre-wash"` iff bit 8 of the right
display register is set, `"Short"` iff bit 6, `"Wasser Plus"` iff bit 7,
`"Summer"` iff bit 16, in this order. -/
theorem formatState_joins_labels_in_order (self : MotorolaLedDriverSniffer) :
    ∃ phase centrifuge,
      self.phaseLabels = some phase ∧
      MotorolaLedDriverSniffer.centrifugeLabels self._right.getDisplayReg = centrifuge ∧
      atMostOneLabel phase ∧ atMostOneLabel centrifuge ∧
      self.formatState = some (", ".intercalate (
        phase ++ centrifuge ++
        (if self._right.getDisplayReg.testBit 8 then ["Pre-wash"] else []) ++
        (if self._right.getDisplayReg.testBit 6 then ["Short"] else []) ++
        (if self._right.getDisplayReg.testBit 7 then ["Wasser Plus"] else []) ++
        (if self._right.getDisplayReg.testBit 16 then ["Summer"] else []))) := by
  obtain ⟨phase, hphase, hshape⟩ := MotorolaLedDriverSniffer.phaseLabels_shape self
  have hcent := MotorolaLedDriverSniffer.centrifugeLabels_shape self._right.getDisplayReg
  refine ⟨phase, _, hphase, rfl, hshape, hcent, ?_⟩
  rw [MotorolaLedDriverSniffer.formatState_eq_join, hphase, Option.map_some',
    MotorolaLedDriverSniffer.joinLabels_eq_intercalate,
    MotorolaLedDriverSniffer.optionLabels_bits]
  · simp only [List.append_assoc]
  · intro s hs
    rw [List.mem_append, List.mem_append] at hs
    rcases hs with (hs | hs) | hs
    · exact hshape.2 s hs
    · exact hcent.2 s hs
    · exact MotorolaLedDriverSniffer.optionLabels_nonempty _ s hs

theorem formatState_joins_labels_in_order_witness :
    (MotorolaLedDriverSniffer.withRegisters 0x01 0 0 0x0521C0).formatState
      = some "Washing, Ø 1400, Pre-wash, Short, Wasser Plus, Summer" := by
  obtain ⟨phase, centrifuge, hphase, hcent, -, -, hf⟩ :=
    formatState_joins_labels_in_order (MotorolaLedDriverSniffer.withRegisters 0x01 0 0 0x0521C0)
  have hconc : (MotorolaLedDriverSniffer.withRegisters 0x01 0 0 0x0521C0).phaseLabels
      = some ["Washing"] := by decide
  rw [hconc] at hphase
  cases hphase
  subst hcent
  exact hf.trans (by decide)

namespace MotorolaLedDriverSniffer

/-- `formatTime` always returns a string. -/
theorem formatTime_some (self : MotorolaLedDriverSniffer) : ∃ s, self.formatTime = some s := by
  obtain ⟨a, b, e, -, -, -, hdisp⟩ := getDisplay_some self
  apply Option.isSome_iff_exists.1
  cases hoff : self.isDisplayOff
  · by_cases ha : a = '-'
    · simp [formatTime, hoff, hdisp, ha]
    · by_cases he : e = ' '
      · simp [formatTime, hoff, hdisp, ha, he]
      · simp [formatTime, hoff, hdisp, ha, he]
  · simp [formatTime, hoff]

/-- `formatState` always returns a string. -/
theorem formatState_some (self : MotorolaLedDriverSniffer) : ∃ s, self.formatState = some s := by
  obtain ⟨phase, hphase, -⟩ := phaseLabels_shape self
  exact ⟨_, by rw [formatState_eq_join, hphase]; rfl⟩

/-- `getDisplay` reads the left chip's two registers only. -/
theorem getDisplay_congr (self other : MotorolaLedDriverSniffer)
    (hc : self._left.getCtrlReg = other._left.getCtrlReg)
    (hd : self._left.getDisplayReg = other._left.getDisplayReg) :
    self.getDisplay = other.getDisplay := by
  unfold getDisplay
  rw [hc, hd]

/-- `formatTime` reads the left chip's two registers only. -/
theorem formatTime_congr (self other : MotorolaLedDriverSniffer)
    (hc : self._left.getCtrlReg = other._left.getCtrlReg)
    (hd : self._left.getDisplayReg = other._left.getDisplayReg) :
    self.formatTime = other.formatTime := by
  unfold formatTime isDisplayOff
  rw [hc, getDisplay_congr self other hc hd]

/-- `decodeState` reads the left chip's two registers only. -/
theorem decodeState_congr (self other : MotorolaLedDriverSniffer)
    (hc : self._left.getCtrlReg = other._left.getCtrlReg)
    (hd : self._left.getDisplayReg = other._left.getDisplayReg) :
    self.decodeState = other.decodeState := by
  unfold decodeState isDisplayOff
  rw [hc, getDisplay_congr self other hc hd]

/-- `formatState` reads the left chip's two registers and the right display
register only. -/
theorem formatState_congr (self other : MotorolaLedDriverSniffer)
    (hc : self._left.getCtrlReg = other._left.getCtrlReg)
    (hd : self._left.getDisplayReg = other._left.getDisplayReg)
    (hr : self._right.getDisplayReg = other._right.getDisplayReg) :
    self.formatState = other.formatState := by
  unfold formatState
  rw [hr, decodeState_congr self other hc hd, getDisplay_congr self other hc hd]

/-- `publishNew` leaves the sink showing the new string. -/
theorem publishNew_state (sensor : TextSensor) (s : String) : (publishNew sensor s).state = s := by
  unfold publishNew
  by_cases h : sensor.state = s
  · simp [h]
  · simp [h, TextSensor.publish_state]

/-- `publishNew` logs a `publish_state` call exactly when the string differs. -/
theorem publishNew_published (sensor : TextSensor) (s : String) :
    (publishNew sensor s).published =
      (if sensor.state = s then sensor.published else sensor.published ++ [s]) := by
  unfold publishNew
  by_cases h : sensor.state = s
  · simp [h]
  · simp [h, TextSensor.publish_state]

/-- `publishNew` does nothing to a sink that already shows the string. -/
theorem publishNew_same (sensor : TextSensor) (s : String) (h : sensor.state = s) :
    publishNew sensor s = sensor := by
  simp [publishNew, h]

/-- The result of `loop`. -/
theorem loop_eq (self : MotorolaLedDriverSniffer) (t st : String)
    (ht : self.formatTime = some t) (hs : self.formatState = some st) :
    self.loop = some { self with
      _timeOutput := publishNew self._timeOutput t
      _stateOutput := publishNew self._stateOutput st } := by
  have hs2 : ({ self with _timeOutput := publishNew self._timeOutput t } :
      MotorolaLedDriverSniffer).formatState = some st := by
    rw [← hs]
    exact formatState_congr _ _ rfl rfl rfl
  unfold loop
  rw [ht]
  simp only [Option.some_bind, Option.bind_eq_bind, hs2]
  rfl

end MotorolaLedDriverSniffer

/-- C14: with each output sink a current value that `publish_state` replaces (and a
log of the `publish_state` calls), `publishNew` calls `publish_state` iff the
new string differs from the sink's current value. `loop()` always returns,
leaves both decoders as they were and hands `formatTime()` and `formatState()`
to their sinks through `publishNew`: each sink's log grows by the formatted
string iff that string differs from the sink's current value, and the sink
then shows it. A `loop()` that follows with the same four consensus registers
calls `publish_state` on neither sink and leaves both sinks as they were, and
a `loop()` that follows with any registers calls `publish_state` on a sink iff
its formatted string differs from the one of the previous `loop()`. -/
theorem loop_publishes_only_changes :
    (∀ (sensor : TextSensor) (s : String),
      (MotorolaLedDriverSniffer.publishNew sensor s).published =
        (if sensor.state = s then sensor.published else sensor.published ++ [s]) ∧
      (MotorolaLedDriverSniffer.publishNew sensor s).state = s) ∧
    (∀ self : MotorolaLedDriverSniffer, ∃ t st first,
      self.formatTime = some t ∧ self.formatState = some st ∧
      self.loop = some first ∧
      first._left = self._left ∧ first._right = self._right ∧
      first._timeOutput = MotorolaLedDriverSniffer.publishNew self._timeOutput t ∧
      first._stateOutput = MotorolaLedDriverSniffer.publishNew self._stateOutput st ∧
      first._timeOutput.published =
        (if self._timeOutput.state = t then self._timeOutput.published
          else self._timeOutput.published ++ [t]) ∧
      first._stateOutput.published =
        (if self._stateOutput.state = st then self._stateOutput.published
          else self._stateOutput.published ++ [st]) ∧
      first._timeOutput.state = t ∧ first._stateOutput.state = st ∧
      (∀ next : MotorolaLedDriverSniffer,
        next._timeOutput = first._timeOutput → next._stateOutput = first._stateOutput →
        next._left.getCtrlReg = self._left.getCtrlReg →
        next._left.getDisplayReg = self._left.getDisplayReg →
        next._right.getCtrlReg = self._right.getCtrlReg →
        next._right.getDisplayReg = self._right.getDisplayReg →
        ∃ second, next.loop = some second ∧
          second._timeOutput.published = first._timeOutput.published ∧
          second._stateOutput.published = first._stateOutput.published ∧
          second._timeOutput = next._timeOutput ∧ second._stateOutput = next._stateOutput) ∧
      (∀ next : MotorolaLedDriverSniffer,
        next._timeOutput = first._timeOutput → next._stateOutput = first._stateOutput →
        ∃ t2 st2 second,
          next.formatTime = some t2 ∧ next.formatState = some st2 ∧
          next.loop = some second ∧
          second._timeOutput.published =
            (if t = t2 then first._timeOutput.published
              else first._timeOutput.published ++ [t2]) ∧
          second._stateOutput.published =
            (if st = st2 then first._stateOutput.published
              else first._stateOutput.published ++ [st2]))) := by
  constructor
  · intro sensor s
    exact ⟨MotorolaLedDriverSniffer.publishNew_published sensor s,
      MotorolaLedDriverSniffer.publishNew_state sensor s⟩
  · intro self
    obtain ⟨t, ht⟩ := MotorolaLedDriverSniffer.formatTime_some self
    obtain ⟨st, hs⟩ := MotorolaLedDriverSniffer.formatState_some self
    refine ⟨t, st, _, ht, hs, MotorolaLedDriverSniffer.loop_eq self t st ht hs, rfl, rfl, rfl, rfl,
      MotorolaLedDriverSniffer.publishNew_published _ _,
      MotorolaLedDriverSniffer.publishNew_published _ _,
      MotorolaLedDriverSniffer.publishNew_state _ _,
      MotorolaLedDriverSniffer.publishNew_state _ _, ?_, ?_⟩
    · intro next hto hso hlc hld _ hrd
      have ht2 : next.formatTime = some t := by
        rw [← ht]
        exact MotorolaLedDriverSniffer.formatTime_congr next self hlc hld
      have hs2 : next.formatState = some st := by
        rw [← hs]
        exact MotorolaLedDriverSniffer.formatState_congr next self hlc hld hrd
      have hto2 : MotorolaLedDriverSniffer.publishNew next._timeOutput t = next._timeOutput :=
        MotorolaLedDriverSniffer.publishNew_same _ _
          (by rw [hto]; exact MotorolaLedDriverSniffer.publishNew_state _ _)
      have hso2 : MotorolaLedDriverSniffer.publishNew next._stateOutput st = next._stateOutput :=
        MotorolaLedDriverSniffer.publishNew_same _ _
          (by rw [hso]; exact MotorolaLedDriverSniffer.publishNew_state _ _)
      refine ⟨_, MotorolaLedDriverSniffer.loop_eq next t st ht2 hs2, ?_, ?_, ?_, ?_⟩
      · show (MotorolaLedDriverSniffer.publishNew next._timeOutput t).published = _
        rw [hto2, hto]
      · show (MotorolaLedDriverSniffer.publishNew next._stateOutput st).published = _
        rw [hso2, hso]
      · exact hto2
      · exact hso2
    · intro next hto hso
      obtain ⟨t2, ht2⟩ := MotorolaLedDriverSniffer.formatTime_some next
      obtain ⟨st2, hs2⟩ := MotorolaLedDriverSniffer.formatState_some next
      have hst1 : next._timeOutput.state = t := by
        rw [hto]; exact MotorolaLedDriverSniffer.publishNew_state _ _
      have hst2 : next._stateOutput.state = st := by
        rw [hso]; exact MotorolaLedDriverSniffer.publishNew_state _ _
      refine ⟨t2, st2, _, ht2, hs2, MotorolaLedDriverSniffer.loop_eq next t2 st2 ht2 hs2, ?_, ?_⟩
      · show (MotorolaLedDriverSniffer.publishNew next._timeOutput t2).published = _
        rw [MotorolaLedDriverSniffer.publishNew_published, hst1, hto]
      · show (MotorolaLedDriverSniffer.publishNew next._stateOutput st2).published = _
        rw [MotorolaLedDriverSniffer.publishNew_published, hst2, hso]

theorem loop_publishes_only_changes_witness :
    ∃ first second,
      (MotorolaLedDriverSniffer.withRegisters 0x43 0x540 0 0x2000).loop = some first ∧
      first._timeOutput.published = ["45 min"] ∧
      first._stateOutput.published = ["Washing"] ∧
      first.loop = some second ∧
      second._timeOutput.published = ["45 min"] ∧
      second._stateOutput.published = ["Washing"] := by
  obtain ⟨t, st, first, ht, hs, hloop, hl, hr, -, -, hpt, hps, -, -, hsame, -⟩ :=
    loop_publishes_only_changes.2 (MotorolaLedDriverSniffer.withRegisters 0x43 0x540 0 0x2000)
  have ht0 : (MotorolaLedDriverSniffer.withRegisters 0x43 0x540 0 0x2000).formatTime
      = some "45 min" := by decide
  have hs0 : (MotorolaLedDriverSniffer.withRegisters 0x43 0x540 0 0x2000).formatState
      = some "Washing" := by decide
  rw [ht0] at ht
  rw [hs0] at hs
  cases ht
  cases hs
  obtain ⟨second, hloop2, hpt2, hps2, -, -⟩ :=
    hsame first rfl rfl (by rw [hl]) (by rw [hl]) (by rw [hr]) (by rw [hr])
  have hpt1 : first._timeOutput.published = ["45 min"] := hpt.trans (by decide)
  have hps1 : first._stateOutput.published = ["Washing"] := hps.trans (by decide)
  exact ⟨first, second, hloop, hpt1, hps1, hloop2, hpt2.trans hpt1, hps2.trans hps1⟩

/-- C15 (the code at the failing input): a freshly constructed decoder after
`select()` read as selected and 255 clock ticks is selected with bit counter
255, and one more `tick()` makes the bit counter 0: the counter decreases. -/
theorem tick_wraps_bit_count :
    ((MC14489.init.select true).ticks (List.replicate 255 false))._selected = true ∧
    ((MC14489.init.select true).ticks (List.replicate 255 false))._bits = 255 ∧
    (((MC14489.init.select true).ticks (List.replicate 255 false)).tick false)._bits = 0 := by
  obtain ⟨acc, h⟩ := MC14489.ticks_selected (MC14489.init.select true) rfl (by decide)
    (List.replicate 255 false)
  rw [h, List.length_replicate]
  refine ⟨rfl, rfl, ?_⟩
  simp [MC14489.tick, MC14489.select, MC14489.init]

/-- C16: for every decoder state, `tick()` (selected or not) and `select()` read as
selected leave both consensus buffers (visible value and ring) unchanged;
`tick()` while not selected changes no field; a deselect with bit count 8
leaves the display consensus buffer unchanged, one with bit count 24 leaves the
control consensus buffer unchanged, and one with any other bit count leaves
both unchanged. -/
theorem registers_touched_only_at_latching_deselect (s : MC14489) (d : Bool) :
    ((s.tick d)._displayReg = s._displayReg ∧ (s.tick d)._ctrlReg = s._ctrlReg) ∧
    ((s.select true)._displayReg = s._displayReg ∧ (s.select true)._ctrlReg = s._ctrlReg) ∧
    (s._selected = false → s.tick d = s) ∧
    (s._bits = 8 → (s.select false)._displayReg = s._displayReg) ∧
    (s._bits = 24 → (s.select false)._ctrlReg = s._ctrlReg) ∧
    (s._bits ≠ 8 → s._bits ≠ 24 →
      (s.select false)._displayReg = s._displayReg ∧ (s.select false)._ctrlReg = s._ctrlReg) := by
  refine ⟨?_, ?_, ?_, ?_, ?_, ?_⟩
  · cases hs : s._selected <;> simp [MC14489.tick, hs]
  · simp [MC14489.select]
  · intro hs
    simp [MC14489.tick, hs]
  · intro h8
    simp [MC14489.select, h8]
  · intro h24
    simp [MC14489.select, h24]
  · intro h8 h24
    simp [MC14489.select, h8, h24]

theorem registers_touched_only_at_latching_deselect_witness :
    ((MC14489.init.select true).ticks (bitsMSB 8 0xB2))._bits = 8 ∧
    (((MC14489.init.select true).ticks (bitsMSB 8 0xB2)).select false)._displayReg =
      ((MC14489.init.select true).ticks (bitsMSB 8 0xB2))._displayReg :=
  ⟨by decide,
    (registers_touched_only_at_latching_deselect
      ((MC14489.init.select true).ticks (bitsMSB 8 0xB2)) false).2.2.2.1 (by decide)⟩

/-- C17: `decodeBank` returns a character, not reaching `__builtin_unreachable()`, for
every nibble in 0..15 and both values of the flag; for every display and
control register value the three nibbles that `getDisplay` passes are in 0..15,
and `getDisplay`, `formatTime`, `decodeState` and `formatState` all return. -/
theorem decodeBank_never_unreachable :
    (∀ n, n < 16 → ∀ sp : Bool, ∃ ch, MC14489.decodeBank n sp = some ch) ∧
    (∀ self : MotorolaLedDriverSniffer,
      (self._left.getDisplayReg &&& 0xf < 16 ∧
        (self._left.getDisplayReg >>> 4) &&& 0xf < 16 ∧
        (self._left.getDisplayReg >>> 8) &&& 0xf < 16) ∧
      (∃ disp, self.getDisplay = some disp) ∧
      (∃ s, self.formatTime = some s) ∧
      (∃ st, self.decodeState = some st) ∧
      (∃ s, self.formatState = some s)) := by
  refine ⟨decodeBank_nibble_some, fun self => ⟨?_, ?_, ?_, ?_, ?_⟩⟩
  · obtain ⟨h0, h1, h2⟩ := bank_extract self._left.getDisplayReg
    rw [h0, h1, h2]
    exact ⟨Nat.mod_lt _ (by norm_num), Nat.mod_lt _ (by norm_num), Nat.mod_lt _ (by norm_num)⟩
  · obtain ⟨a, b, e, -, -, -, h⟩ := getDisplay_some self
    exact ⟨_, h⟩
  · exact MotorolaLedDriverSniffer.formatTime_some self
  · obtain ⟨a, b, e, -, h⟩ := MotorolaLedDriverSniffer.decodeState_eq self
    exact ⟨_, h⟩
  · exact MotorolaLedDriverSniffer.formatState_some self

theorem decodeBank_never_unreachable_witness :
    ∃ ch, MC14489.decodeBank 0xF true = some ch :=
  decodeBank_never_unreachable.1 0xF (by decide) true

/-- C18: two sniffers that agree on the left control register, the left display
register and the right display register (whatever their right control
registers) get the same `formatState` string and the same `formatTime` string. -/
theorem formatState_ignores_right_control (self other : MotorolaLedDriverSniffer)
    (hc : self._left.getCtrlReg = other._left.getCtrlReg)
    (hd : self._left.getDisplayReg = other._left.getDisplayReg)
    (hr : self._right.getDisplayReg = other._right.getDisplayReg) :
    self.formatState = other.formatState ∧ self.formatTime = other.formatTime :=
  ⟨MotorolaLedDriverSniffer.formatState_congr self other hc hd hr,
    MotorolaLedDriverSniffer.formatTime_congr self other hc hd⟩

theorem formatState_ignores_right_control_witness :
    (MotorolaLedDriverSniffer.withRegisters 0x43 0x540 0x00 0x2000)._right.getCtrlReg ≠
      (MotorolaLedDriverSniffer.withRegisters 0x43 0x540 0xFF 0x2000)._right.getCtrlReg ∧
    (MotorolaLedDriverSniffer.withRegisters 0x43 0x540 0x00 0x2000).formatState =
      (MotorolaLedDriverSniffer.withRegisters 0x43 0x540 0xFF 0x2000).formatState ∧
    (MotorolaLedDriverSniffer.withRegisters 0x43 0x540 0x00 0x2000).formatTime =
      (MotorolaLedDriverSniffer.withRegisters 0x43 0x540 0xFF 0x2000).formatTime :=
  ⟨by decide,
    formatState_ignores_right_control
      (MotorolaLedDriverSniffer.withRegisters 0x43 0x540 0x00 0x2000)
      (MotorolaLedDriverSniffer.withRegisters 0x43 0x540 0xFF 0x2000) rfl rfl rfl⟩

/-- C19: whenever all four consensus registers still show their default 0, as in
the initial state, `formatTime` returns `" "` and `formatState` returns exactly
`"Door open"`. -/
theorem unconfirmed_bus_reads_door_open (self : MotorolaLedDriverSniffer)
    (hlc : self._left.getCtrlReg = 0) (hld : self._left.getDisplayReg = 0)
    (hrc : self._right.getCtrlReg = 0) (hrd : self._right.getDisplayReg = 0) :
    self.formatTime = some " " ∧ self.formatState = some "Door open" := by
  have _ := hrc
  have ht : (MotorolaLedDriverSniffer.withRegisters 0 0 0 0).formatTime = some " " := by decide
  have hs : (MotorolaLedDriverSniffer.withRegisters 0 0 0 0).formatState = some "Door open" := by
    decide
  constructor
  · rw [← ht]
    exact MotorolaLedDriverSniffer.formatTime_congr _ _ hlc hld
  · rw [← hs]
    exact MotorolaLedDriverSniffer.formatState_congr _ _ hlc hld hrd

theorem unconfirmed_bus_reads_door_open_witness :
    (MotorolaLedDriverSniffer.withRegisters 0 0 0 0)._left = MC14489.init ∧
    (MotorolaLedDriverSniffer.withRegisters 0 0 0 0)._right = MC14489.init ∧
    (MotorolaLedDriverSniffer.withRegisters 0 0 0 0).formatTime = some " " ∧
    (MotorolaLedDriverSniffer.withRegisters 0 0 0 0).formatState = some "Door open" :=
  ⟨rfl, rfl,
    unconfirmed_bus_reads_door_open (MotorolaLedDriverSniffer.withRegisters 0 0 0 0)
      rfl rfl rfl rfl⟩

/-- C20: a deselect clears neither the bit counter nor the accumulator, so for every
byte `b` and every prior decoder state (with the control ring's write index
inside its array), one `select()` read as selected, 8 `tick()` calls presenting
`b` most significant bit first and three consecutive `select()` calls read as
deselected leave `getCtrlReg() = b`. -/
theorem repeated_deselect_confirms_single_transaction (s : MC14489)
    (hptr : s._ctrlReg._buffer._ptr < 3) (b : Nat) (hb : b < 2 ^ 8) :
    (((s.select true).ticks (bitsMSB 8 b)).select false)._bits = 8 ∧
    (((s.select true).ticks (bitsMSB 8 b)).select false)._buffer = b ∧
    (((((s.select true).ticks (bitsMSB 8 b)).select false).select false).select
      false).getCtrlReg = b := by
  have h1 : ((s.select true).ticks (bitsMSB 8 b)).select false = s.transaction 8 b := rfl
  have hb8 : b % 256 = b := Nat.mod_eq_of_lt (by simpa using hb)
  rw [h1, MC14489.transaction_8 s b hb]
  refine ⟨rfl, rfl, ?_⟩
  simp only [MC14489.select, MC14489.getCtrlReg, Bool.false_eq_true, if_false, if_true,
    Nat.reducePow, hb8]
  exact ConsensusBuffer.assign_thrice s._ctrlReg hptr b

theorem repeated_deselect_confirms_single_transaction_witness :
    (((((MC14489.init.select true).ticks (bitsMSB 8 0xB2)).select false).select false).select
      false).getCtrlReg = 0xB2 :=
  (repeated_deselect_confirms_single_transaction MC14489.init (by decide) 0xB2
    (by decide)).2.2

end miele_novotronic
